import Mathlib

/-
Formal model of the fpl-proxy server (a caching reverse proxy in front of the
Fantasy Premier League API).  The embedding covers the four core components of
the repository: the TTL cache built on lru-cache, the upstream scheduler queue
(schedule/pump), the retrying fetcher (fetchUpstream / fetchUpstreamWithRetries),
and the /api proxy pipeline with its aggregate endpoints.  Time is an explicit
Nat parameter (milliseconds, as returned by Date.now); payloads are opaque
values; the HTTP layer is an oracle assigning an outcome to each attempt.
-/

namespace FplProxy

/-! ## TTL cache (src part_000 lines 72-96, part_001 lines 95-107)

The store is lru-cache v10 constructed with `max: 500, ttlAutopurge: true` and a
per-item ttl passed on every `set`.  lru-cache semantics: an item whose age
exceeds its ttl is expired; `get` returns undefined for expired items (the
`allowStale` option is not set), and `ttlAutopurge` deletes them eagerly.
Capacity eviction is not modelled (no claim concerns it). -/

/-- One stored cache record: `{ ts: now(), data }` plus the per-item ttl given
to `cache.set(key, value, { ttl })`. -/
structure CEntry (α : Type) where
  ts : Nat
  ttl : Nat
  data : α
deriving DecidableEq, Repr

/-- The cache contents, newest binding first; at most one binding per key is
kept, mirroring lru-cache overwrite on `set`. -/
abbrev Cache (α : Type) := List (String × CEntry α)

/-- `cache.set(k, e)`: overwrites any existing binding for `k`. -/
def cacheSet {α : Type} (c : Cache α) (k : String) (e : CEntry α) : Cache α :=
  (k, e) :: c.filter (fun pr => pr.1 != k)

/-- `cache.get(k)` at time `t`: returns the binding only while its age is
within its ttl (lru-cache expiry; `allowStale` unset, `ttlAutopurge: true`). -/
def cacheGet {α : Type} (c : Cache α) (t : Nat) (k : String) : Option (CEntry α) :=
  match c.find? (fun pr => pr.1 == k) with
  | some pr => if t - pr.2.ts ≤ pr.2.ttl then some pr.2 else none
  | none => none

/-- `const ck = (url) => "c:" + url`. -/
def ck (url : String) : String := "c:" ++ url

/-- Default TTLs and stale horizon (env defaults from the source). -/
def TTL_BOOTSTRAP : Nat := 15 * 60 * 1000

def TTL_HISTORY : Nat := 5 * 60 * 1000

def TTL_PICKS : Nat := 60 * 1000

def TTL_SUMMARY : Nat := 24 * 60 * 60 * 1000

def STALE_HOURS : Nat := 12

def STALE_MS : Nat := STALE_HOURS * 3600 * 1000

/-- `function setCache(url, data, ttl) { cache.set(ck(url), { ts: now(), data }, { ttl }); }` -/
def setCache {α : Type} (c : Cache α) (t : Nat) (url : String) (data : α) (ttl : Nat) :
    Cache α :=
  cacheSet c (ck url) ⟨t, ttl, data⟩

/-- `function getFresh(url) { const v = cache.get(ck(url)); return v ? v.data : null; }` -/
def getFresh {α : Type} (c : Cache α) (t : Nat) (url : String) : Option α :=
  (cacheGet c t (ck url)).map CEntry.data

/-- `getStale(url)`: `cache.get`, then `now() - v.ts <= STALE_HOURS * 3600 * 1000`. -/
def getStale {α : Type} (c : Cache α) (t : Nat) (url : String) : Option α :=
  match cacheGet c t (ck url) with
  | some e => if t - e.ts ≤ STALE_MS then some e.data else none
  | none => none

/-- The spec's `getStale(key, staleHorizon)` contract as written in the spec:
value is returned while `now - storedAt <= staleHorizon`, independent of the
entry's own ttl.  Kept separate from the source-derived `getStale` so the two
can be compared. -/
def specGetStale {α : Type} (c : Cache α) (t : Nat) (url : String) : Option α :=
  match c.find? (fun pr => pr.1 == ck url) with
  | some pr => if t - pr.2.ts ≤ STALE_MS then some pr.2.data else none
  | none => none

/-! ## String and path helpers

The source lower-cases paths and tests them with `includes`, `endsWith` and two
regexes.  These are modelled over character lists (kernel-reducible). -/

/-- ASCII lower-casing of one character (the paths involved are ASCII). -/
def lcChar (c : Char) : Char :=
  if 'A' ≤ c && c ≤ 'Z' then Char.ofNat (c.toNat + 32) else c

/-- `p.toLowerCase()` over the characters of `p`. -/
def lowerList (p : String) : List Char := p.data.map lcChar

/-- `hay.includes(needle)`: substring search. -/
def listContainsSub (needle : List Char) : List Char → Bool
  | [] => needle.isEmpty
  | c :: rest => needle.isPrefixOf (c :: rest) || listContainsSub needle rest

/-- `l.endsWith(suffix)`. -/
def endsWithList (l suffix : List Char) : Bool :=
  suffix.reverse.isPrefixOf l.reverse

/-- The regex `^entry\/\d+\/?$` of the softable-403 check (part_001 line 278). -/
def entrySoftMatch (l : List Char) : Bool :=
  match l with
  | 'e' :: 'n' :: 't' :: 'r' :: 'y' :: '/' :: rest =>
    let ds := rest.takeWhile Char.isDigit
    let rem := rest.dropWhile Char.isDigit
    !ds.isEmpty && (rem.isEmpty || rem == ['/'])
  | _ => false

/-- The regex `\/entry\/\d+\/$` of `ttlFor`: the path ends in
`/entry/<digits>/`. -/
def entryTtlMatch (l : List Char) : Bool :=
  match l.reverse with
  | '/' :: rest =>
    let ds := rest.takeWhile Char.isDigit
    let rem := rest.dropWhile Char.isDigit
    !ds.isEmpty && List.isPrefixOf "/yrtne/".data rem
  | _ => false

/-- `function ttlFor(path)` (part_000 lines 101-108). -/
def ttlFor (p : String) : Nat :=
  let l := lowerList p
  if listContainsSub "bootstrap-static".data l then TTL_BOOTSTRAP
  else if listContainsSub "/history".data l then TTL_HISTORY
  else if listContainsSub "/picks".data l then TTL_PICKS
  else if endsWithList l "/entry/".data || entryTtlMatch l then TTL_SUMMARY
  else 2 * 60 * 1000

/-- The softable-403 path test of part_001 lines 273-279. -/
def softable (p : String) : Bool :=
  let l := lowerList p
  listContainsSub "bootstrap-static".data l ||
  listContainsSub "/history/".data l ||
  listContainsSub "/picks/".data l ||
  listContainsSub "leagues-classic".data l ||
  entrySoftMatch l

/-- `const API_BASE = "https://fantasy.premierleague.com/api/"` (env default). -/
def API_BASE : String := "https://fantasy.premierleague.com/api/"

/-- `new URL(pathWithQuery, API_BASE).toString()` for the relative paths the
proxy builds (no leading slash), i.e. plain concatenation onto the base. -/
def targetUrl (p : String) : String := API_BASE ++ p

/-! ## Retrying fetcher

`fetchUpstream` (part_000 lines 111-134) runs up to `attempts` axios calls; the
outcome of the `i`-th call (0-based) is given by an oracle: either a response
with a status and a body, or a transport error.  A status is retried exactly
when `(s === 429) || (s >= 500) || (s === 403 && sensitive)`; a non-retryable
response is returned at once; when the budget is exhausted the last observed
response or error is thrown. -/

/-- Outcome of one axios call: an HTTP response (any status, since
`validateStatus: () => true`) or a transport-level error. -/
inductive UpOutcome (α : Type) where
  | resp (status : Nat) (body : α)
  | err (code : Nat)
deriving DecidableEq, Repr

/-- Result of one logical fetch: a returned response, or a thrown value (the
last response or error observed; `none` models throwing an unset variable). -/
inductive FetchResult (α : Type) where
  | ok (status : Nat) (body : α)
  | thrown (last : Option (UpOutcome α))
deriving DecidableEq, Repr

/-- `const retryable = (s === 429) || (s >= 500) || (s === 403 && sensitive)`. -/
def retryable (sensitive : Bool) (s : Nat) : Bool :=
  (s == 429) || decide (500 ≤ s) || (s == 403 && sensitive)

/-- The loop body of part_000's `fetchUpstream`: `ci` is the number of calls
already issued, the middle argument the remaining budget, the last argument the
`last` variable.  Returns the result together with the total number of calls
issued. -/
def fetchLoopPt0 {α : Type} (sv : Bool) (orc : Nat → UpOutcome α) :
    Nat → Nat → Option (UpOutcome α) → FetchResult α × Nat
  | ci, 0, last => (.thrown last, ci)
  | ci, k + 1, _last =>
    match orc ci with
    | .resp s b =>
      if retryable sv s then fetchLoopPt0 sv orc (ci + 1) k (some (.resp s b))
      else (.ok s b, ci + 1)
    | .err e => fetchLoopPt0 sv orc (ci + 1) k (some (.err e))

/-- part_000's `fetchUpstream(targetUrl, headers, attempts, sensitive)`. -/
def fetchUpstreamPt0 {α : Type} (sv : Bool) (attempts : Nat) (orc : Nat → UpOutcome α) :
    FetchResult α :=
  (fetchLoopPt0 sv orc 0 attempts none).1

/-- Number of HTTP calls issued by part_000's `fetchUpstream`. -/
def fetchCallsPt0 {α : Type} (sv : Bool) (attempts : Nat) (orc : Nat → UpOutcome α) : Nat :=
  (fetchLoopPt0 sv orc 0 attempts none).2

/-- The loop body of index.js's `fetchUpstreamWithRetries` (lines 93-127): a
non-retryable response returns at once; a retryable response on the last
attempt is returned as-is; a transport error on the last attempt is rethrown;
after the loop `lastErr` is thrown (reachable only when `attempts = 0`). -/
def fetchLoopIdx {α : Type} (sv : Bool) (orc : Nat → UpOutcome α) :
    Nat → Nat → Option Nat → FetchResult α × Nat
  | ci, 0, le => (.thrown (le.map .err), ci)
  | ci, k + 1, le =>
    match orc ci with
    | .resp s b =>
      if retryable sv s then
        if 0 < k then fetchLoopIdx sv orc (ci + 1) k le else (.ok s b, ci + 1)
      else (.ok s b, ci + 1)
    | .err e =>
      if 0 < k then fetchLoopIdx sv orc (ci + 1) k (some e)
      else (.thrown (some (.err e)), ci + 1)

/-- index.js's `fetchUpstreamWithRetries(targetUrl, headers, {attempts, sensitive})`. -/
def fetchUpstreamIdx {α : Type} (sv : Bool) (attempts : Nat) (orc : Nat → UpOutcome α) :
    FetchResult α :=
  (fetchLoopIdx sv orc 0 attempts none).1

/-- Number of HTTP calls issued by index.js's `fetchUpstreamWithRetries`. -/
def fetchCallsIdx {α : Type} (sv : Bool) (attempts : Nat) (orc : Nat → UpOutcome α) : Nat :=
  (fetchLoopIdx sv orc 0 attempts none).2

/-- The loop body of part_001's header-variant `fetchUpstream` (lines 124-141):
each iteration of the outer `for` issues a call with the full header set and,
if that call is retryable or errors, a second call with the reduced header set
in the same iteration. -/
def fetchLoopPt1 {α : Type} (sv : Bool) (orc : Nat → UpOutcome α) :
    Nat → Nat → Option (UpOutcome α) → FetchResult α × Nat
  | ci, 0, last => (.thrown last, ci)
  | ci, k + 1, _last =>
    let pass2 : FetchResult α × Nat :=
      match orc (ci + 1) with
      | .resp s2 b2 =>
        if retryable sv s2 then fetchLoopPt1 sv orc (ci + 2) k (some (.resp s2 b2))
        else (.ok s2 b2, ci + 2)
      | .err e2 => fetchLoopPt1 sv orc (ci + 2) k (some (.err e2))
    match orc ci with
    | .resp s b => if retryable sv s then pass2 else (.ok s b, ci + 1)
    | .err _e => pass2

/-- part_001's `fetchUpstream`. -/
def fetchUpstreamPt1 {α : Type} (sv : Bool) (attempts : Nat) (orc : Nat → UpOutcome α) :
    FetchResult α :=
  (fetchLoopPt1 sv orc 0 attempts none).1

/-- Number of HTTP calls issued by part_001's `fetchUpstream`. -/
def fetchCallsPt1 {α : Type} (sv : Bool) (attempts : Nat) (orc : Nat → UpOutcome α) : Nat :=
  (fetchLoopPt1 sv orc 0 attempts none).2

/-- The spec's retryable classes, as worded in the spec: HTTP 429, HTTP >= 500,
and HTTP 403 only when sensitive. -/
def specRetryableStatus (sv : Bool) (s : Nat) : Prop :=
  s = 429 ∨ 500 ≤ s ∨ (s = 403 ∧ sv = true)

instance (sv : Bool) (s : Nat) : Decidable (specRetryableStatus sv s) := by
  unfold specRetryableStatus
  infer_instance

/-- A retryable-or-erroring attempt outcome, in the spec's wording. -/
def specRetryableOutcome {α : Type} (sv : Bool) : UpOutcome α → Prop
  | .resp s _ => specRetryableStatus sv s
  | .err _ => True

instance {α : Type} (sv : Bool) (o : UpOutcome α) : Decidable (specRetryableOutcome sv o) :=
  match o with
  | .resp s _ => inferInstanceAs (Decidable (specRetryableStatus sv s))
  | .err _ => inferInstanceAs (Decidable True)

/-! ## Upstream scheduler (part_000 lines 43-65, part_001 lines 87-92)

```
let active = 0; const q = [];
async function schedule(task){ return new Promise((res,rej)=>{ q.push(...); pump(); }); }
async function pump(){
  if (active >= UPSTREAM_CONCURRENCY) return;
  const next = q.shift(); if (!next) return;
  active++;
  try { next.resolve(await next.task()); } catch(e){ next.reject(e); }
  finally { active--; setTimeout(pump, UPSTREAM_DELAY_MS); }
}
```

The event loop is modelled as a timestamped transition system.  Events:
`enqueue` (a `schedule` call, which pushes and synchronously pumps), `complete`
(a dispatched task settles: `active--` and a pump timer is armed), and
`timerFire` (an armed `setTimeout(pump, D)` callback runs; `setTimeout` never
fires earlier than its delay).  Between suspension points all mutation is
synchronous on the single thread, so each event is one atomic step. -/

/-- `UPSTREAM_CONCURRENCY` and `UPSTREAM_DELAY_MS`. -/
structure SchedCfg where
  conc : Nat
  delay : Nat
deriving DecidableEq, Repr

/-- What made `pump` run for a dispatch: a synchronous call from `schedule`, or
the `setTimeout(pump, D)` armed by the completion at time `tc`. -/
inductive DispatchCause where
  | enq
  | afterCompletion (tc : Nat)
deriving DecidableEq, Repr

/-- One dispatch record: the time `pump` started a task, the task id, and what
triggered that `pump` run. -/
structure Dispatch where
  time : Nat
  task : Nat
  cause : DispatchCause
deriving DecidableEq, Repr

/-- Scheduler state: the `active` counter, the FIFO `q`, the set of dispatched
but not yet completed tasks, the armed pump timers (by completion time), the
dispatch log, and the current clock. -/
structure SchedState where
  active : Nat
  queue : List Nat
  running : List Nat
  timers : List Nat
  dispatches : List Dispatch
  clock : Nat
deriving DecidableEq, Repr

/-- Initial scheduler state. -/
def initState : SchedState := ⟨0, [], [], [], [], 0⟩

/-- One synchronous `pump()` run at time `t`: bail out if `active` has reached
the cap, otherwise shift the queue head (if any), increment `active` and start
the task. -/
def pump (cfg : SchedCfg) (s : SchedState) (t : Nat) (cause : DispatchCause) : SchedState :=
  if cfg.conc ≤ s.active then s
  else
    match s.queue with
    | [] => s
    | id :: rest =>
      { s with queue := rest, active := s.active + 1, running := id :: s.running,
               dispatches := s.dispatches ++ [⟨t, id, cause⟩] }

/-- Scheduler events (each carries its wall-clock time). -/
inductive SEvent where
  | enqueue (t : Nat) (id : Nat)
  | complete (t : Nat) (id : Nat)
  | timerFire (t : Nat) (tc : Nat)
deriving DecidableEq, Repr

/-- One event step.  `none` marks an ill-formed event (clock going backwards,
completing a task that is not running, or a timer firing that was never armed
or firing earlier than `setTimeout` allows). -/
def step (cfg : SchedCfg) (s : SchedState) : SEvent → Option SchedState
  | .enqueue t id =>
    if s.clock ≤ t then
      some (pump cfg { s with queue := s.queue ++ [id], clock := t } t .enq)
    else none
  | .complete t id =>
    if s.clock ≤ t ∧ id ∈ s.running then
      some { s with active := s.active - 1, running := s.running.erase id,
                    timers := t :: s.timers, clock := t }
    else none
  | .timerFire t tc =>
    if s.clock ≤ t ∧ tc ∈ s.timers ∧ tc + cfg.delay ≤ t then
      some (pump cfg { s with timers := s.timers.erase tc, clock := t } t (.afterCompletion tc))
    else none

/-- Run a sequence of events from a state. -/
def runSched (cfg : SchedCfg) : SchedState → List SEvent → Option SchedState
  | s, [] => some s
  | s, e :: rest =>
    match step cfg s e with
    | some s' => runSched cfg s' rest
    | none => none

/-- Time of the `complete` event of a task in an event list, if any. -/
def completionTime (evs : List SEvent) (id : Nat) : Option Nat :=
  evs.findSome? fun e =>
    match e with
    | .complete t j => if j == id then some t else none
    | _ => none

/-- The spec's dispatch-spacing guarantee, as worded: for every two consecutive
dispatches of a run, the start of the later one is at least `D` ms after the
completion of the earlier one (whenever the earlier one completes in the
trace). -/
def specDispatchSpacing (cfg : SchedCfg) (evs : List SEvent) : Bool :=
  match runSched cfg initState evs with
  | none => true
  | some s =>
    (s.dispatches.zip s.dispatches.tail).all fun pr =>
      match completionTime evs pr.1.task with
      | some tc => decide (tc + cfg.delay ≤ pr.2.time)
      | none => true

/-! ## The /api proxy pipeline (part_001 lines 238-321)

The handler is a function of the inbound path, the cache, the current time and
the outcome of the scheduled fetch.  The response is its status, body and the
proxy marker headers. -/

/-- Response body as sent by the handler: a JSON payload (from cache or
upstream), a raw `res.send` of the upstream body, one of the hand-crafted
softable-403 payloads, or the 502 error object. -/
inductive Body where
  | json (v : Nat)
  | send (v : Nat)
  | softBootstrap
  | softLeagues
  | softHistory
  | softPicks
  | softEntry
  | errorObj
deriving DecidableEq, Repr

/-- The outbound response: status, body, and the X-Proxy-* markers
(`cacheHit`: some true = HIT, some false = MISS; `upstreamHdr`: some none =
"ERR", some (some s) = the echoed upstream status). -/
structure ApiResp where
  status : Nat
  body : Body
  cacheHit : Option Bool := none
  staleHdr : Bool := false
  upstreamHdr : Option (Option Nat) := none
  softHdr : Bool := false
deriving DecidableEq, Repr

/-- What the handler sees after `try { upstream = await fetchUpstream(...) }
catch (e) { upstream = e }`: the thrown value of an exhausted fetch is the last
response (which still has a `.status`) or a transport error (which has none),
so `if (!upstream || !upstream.status)` groups the outcomes this way. -/
def upstreamOf {α : Type} : FetchResult α → Option (Nat × α)
  | .ok s b => some (s, b)
  | .thrown (some (.resp s b)) => some (s, b)
  | .thrown (some (.err _)) => none
  | .thrown none => none

/-- The softable-403 synthetic payload for a path (part_001 lines 282-299). -/
def softBody (p : String) : Body :=
  let l := lowerList p
  if listContainsSub "bootstrap-static".data l then .softBootstrap
  else if listContainsSub "leagues-classic".data l then .softLeagues
  else if listContainsSub "/history/".data l then .softHistory
  else if listContainsSub "/picks/".data l then .softPicks
  else .softEntry

/-- part_001's generic /api handler for a GET request, given the path after
`/api/`, the cache, the time, and the fetch outcome: fresh-cache hit, then the
transport-failure branch, the non-2xx branch (stale fallback, softable-403
synthetic payload, or verbatim propagation), then the success branch which
caches the body. -/
def apiHandler (c : Cache Nat) (t : Nat) (p : String) (fr : FetchResult Nat) :
    ApiResp × Cache Nat :=
  let url := targetUrl p
  match getFresh c t url with
  | some v => ({ status := 200, body := .json v, cacheHit := some true }, c)
  | none =>
    match upstreamOf fr with
    | none =>
      match getStale c t url with
      | some v =>
        ({ status := 200, body := .json v, staleHdr := true, upstreamHdr := some none }, c)
      | none => ({ status := 502, body := .errorObj }, c)
    | some (s, b) =>
      if s < 200 ∨ 300 ≤ s then
        match getStale c t url with
        | some v =>
          ({ status := 200, body := .json v, staleHdr := true,
             upstreamHdr := some (some s) }, c)
        | none =>
          if s == 403 && softable p then
            ({ status := 200, body := softBody p, softHdr := true,
               upstreamHdr := some (some 403) }, c)
          else ({ status := s, body := .send b }, c)
      else
        ({ status := 200, body := .json b, cacheHit := some false },
         setCache c t url b (ttlFor p))

/-- The claim's asserted failure behaviour of the pipeline, as worded in the
spec: on non-2xx or transport failure, serve a within-horizon stale entry as
200 with the degraded markers; with no stale entry, propagate the upstream
status and body, or 502 for a pure transport failure.  "Within-horizon stale"
is the spec's own stale notion (`specGetStale`). -/
def specC4Behavior (c : Cache Nat) (t : Nat) (p : String) (fr : FetchResult Nat) : Bool :=
  let url := targetUrl p
  let r := (apiHandler c t p fr).1
  match upstreamOf fr with
  | some (s, _b) =>
    if s < 200 ∨ 300 ≤ s then
      match specGetStale c t url with
      | some v =>
        r == { status := 200, body := .json v, staleHdr := true, upstreamHdr := some (some s) }
      | none =>
        (r.status == s) && (match r.body with | .send _ => true | _ => false)
    else true
  | none =>
    match specGetStale c t url with
    | some v =>
      r == { status := 200, body := .json v, staleHdr := true, upstreamHdr := some none }
    | none => r == { status := 502, body := .errorObj }

/-! ## Aggregate endpoints (part_000 lines 191-263, part_001 lines 144-181)

Each endpoint parses `ids`, then runs the per-id pipeline in a loop, pushing
one result object per id.  The upstream outcome of each id's fetch is given by
a per-id oracle. -/

/-- A status tag in a result object: a numeric upstream status or the literal
`"ERR"` pushed from the catch branch. -/
inductive StatusTag where
  | code (s : Nat)
  | transportErr
deriving DecidableEq, Repr

/-- One entry of the summary endpoint's `results` array. -/
structure SumEntry where
  id : Int
  ok : Bool
  data : Option Nat := none
  staleFlag : Bool := false
  upstream : Option StatusTag := none
  status : Option StatusTag := none
deriving DecidableEq, Repr

/-- The outbound URL `entry/${id}/` against `API_BASE`. -/
def sumUrl (id : Int) : String := API_BASE ++ "entry/" ++ toString id ++ "/"

/-- One iteration of the summary endpoint's loop (part_000 lines 197-224):
fresh hit, else fetch; 2xx caches and reports ok; other statuses fall back to
stale (tagged stale with the upstream status) or report ok:false; a thrown
fetch lands in the catch branch and is tagged "ERR". -/
def summaryStep (c : Cache Nat) (t : Nat) (id : Int) (fr : FetchResult Nat) :
    SumEntry × Cache Nat :=
  let url := sumUrl id
  match getFresh c t url with
  | some v => ({ id := id, ok := true, data := some v }, c)
  | none =>
    match fr with
    | .ok s v =>
      if 200 ≤ s ∧ s < 300 then
        ({ id := id, ok := true, data := some v }, setCache c t url v TTL_SUMMARY)
      else
        match getStale c t url with
        | some v' =>
          ({ id := id, ok := true, data := some v', staleFlag := true,
             upstream := some (.code s) }, c)
        | none => ({ id := id, ok := false, status := some (.code s) }, c)
    | .thrown _ =>
      match getStale c t url with
      | some v' =>
        ({ id := id, ok := true, data := some v', staleFlag := true,
           upstream := some .transportErr }, c)
      | none => ({ id := id, ok := false, status := some .transportErr }, c)

/-- The summary endpoint's loop over the parsed ids, threading the cache. -/
def summaryRun (t : Nat) (orc : Int → FetchResult Nat) :
    Cache Nat → List Int → List SumEntry × Cache Nat
  | c, [] => ([], c)
  | c, id :: rest =>
    let r := summaryStep c t id (orc id)
    let rs := summaryRun t orc r.2 rest
    (r.1 :: rs.1, rs.2)

/-- One row of a history payload (`data.current`), with the fields the handler
reads. -/
structure Row where
  event : Nat
  points : Int
deriving DecidableEq, Repr

/-- A history payload: `{ current: [...] }`. -/
structure HistData where
  current : List Row
deriving DecidableEq, Repr

/-- One entry of the history endpoint's `results` array. -/
structure HistEntry where
  id : Int
  ok : Bool
  points : Option Int := none
  raw : Option Row := none
  staleFlag : Bool := false
deriving DecidableEq, Repr

/-- The outbound URL `entry/${id}/history/` against `API_BASE`. -/
def histUrl (id : Int) : String := API_BASE ++ "entry/" ++ toString id ++ "/history/"

/-- `(data?.current || []).find(x => x.event === gw) || null`. -/
def rowFor (d : HistData) (gw : Nat) : Option Row :=
  d.current.find? fun r => r.event == gw

/-- `{ id, ok: true, points: row?.points ?? null, raw: row || null }`. -/
def mkHistEntry (id : Int) (gw : Nat) (d : HistData) (st : Bool) : HistEntry :=
  match rowFor d gw with
  | some r => { id := id, ok := true, points := some r.points, raw := some r, staleFlag := st }
  | none => { id := id, ok := true, staleFlag := st }

/-- One iteration of the history endpoint's loop (part_000 lines 246-260):
`const data = fresh ? fresh : (await fetchUpstream(url, headers, 3, false)).data;
if (!fresh) setCache(url, data, TTL.HISTORY);` — note the response's status is
never inspected: whatever non-retryable response the fetch returned is cached.
A thrown fetch lands in the catch branch (stale fallback or ok:false). -/
def historyStep (c : Cache HistData) (t : Nat) (gw : Nat) (id : Int)
    (fr : FetchResult HistData) : HistEntry × Cache HistData :=
  let url := histUrl id
  match getFresh c t url with
  | some d => (mkHistEntry id gw d false, c)
  | none =>
    match fr with
    | .ok _s d => (mkHistEntry id gw d false, setCache c t url d TTL_HISTORY)
    | .thrown _ =>
      match getStale c t url with
      | some d => (mkHistEntry id gw d true, c)
      | none => ({ id := id, ok := false }, c)

/-- The history endpoint's loop over the parsed ids, threading the cache
(part_000 lines 235-261); `gw` is parsed once per request. -/
def historyRun (t gw : Nat) (orch : Int → FetchResult HistData) :
    Cache HistData → List Int → List HistEntry × Cache HistData
  | c, [] => ([], c)
  | c, id :: rest =>
    let r := historyStep c t gw id (orch id)
    let rs := historyRun t gw orch r.2 rest
    (r.1 :: rs.1, rs.2)

/-- The claim's asserted tagging of one history sub-result, as worded in the
spec ("each sub-result is individually tagged success/stale/failed"; "`999`
fails upstream → ... one `ok:false`"): ok:true from fresh data, a 2xx fetch,
or a within-horizon stale fallback (then flagged stale); ok:false when the
id's upstream fetch failed — non-2xx or transport error — with no fallback. -/
def specC9HistoryEntryTag (c : Cache HistData) (t gw : Nat) (id : Int)
    (fr : FetchResult HistData) : Bool :=
  let e := (historyStep c t gw id fr).1
  match getFresh c t (histUrl id) with
  | some _ => e.ok
  | none =>
    match fr with
    | .ok s _ =>
      if 200 ≤ s ∧ s < 300 then e.ok
      else
        match getStale c t (histUrl id) with
        | some _ => e.ok && e.staleFlag
        | none => !e.ok
    | .thrown _ =>
      match getStale c t (histUrl id) with
      | some _ => e.ok && e.staleFlag
      | none => !e.ok

/-! ## ids parsing (part_000 lines 192-194)

`String(req.query.ids || "").split(",").map(x => parseInt(x, 10)).filter(Boolean)` -/

/-- JavaScript whitespace skipped by `parseInt`. -/
def isJsSpace (c : Char) : Bool :=
  c == ' ' || c == '\t' || c == '\n' || c == '\r' || c == '\x0b' || c == '\x0c'

/-- Value of a list of decimal digits. -/
def digitsToNat (ds : List Char) : Nat :=
  ds.foldl (fun a c => a * 10 + (c.toNat - 48)) 0

/-- `parseInt(x, 10)`: skip leading whitespace, optional sign, then a leading
digit run; NaN (modelled as `none`) when no digit follows. -/
def jsParseInt (cs : List Char) : Option Int :=
  let core : List Char → Option Int := fun l =>
    let ds := l.takeWhile Char.isDigit
    if ds.isEmpty then none else some (Int.ofNat (digitsToNat ds))
  match cs.dropWhile isJsSpace with
  | '-' :: rest => (core rest).map (fun n => -n)
  | '+' :: rest => core rest
  | rest => core rest

/-- `s.split(",")`. -/
def splitCommaAux (acc : List Char) : List Char → List (List Char)
  | [] => [acc.reverse]
  | c :: rest =>
    if c == ',' then acc.reverse :: splitCommaAux [] rest
    else splitCommaAux (c :: acc) rest

/-- The ids parser: split on commas, `parseInt` each token, drop every falsy
result (`NaN`, `0` and `-0`). -/
def parseIds (s : String) : List Int :=
  (splitCommaAux [] s.data).filterMap fun tok =>
    match jsParseInt tok with
    | some n => if n == 0 then none else some n
    | none => none

/-- The summary route's response: 400 `{error: "ids required"}` when no ids
survive parsing, otherwise the aggregated `results` array. -/
inductive SummaryRouteResult where
  | badRequest
  | okJson (results : List SumEntry)
deriving DecidableEq, Repr

/-- `/api/aggregate/summary?ids=...` (part_000 lines 191-226). -/
def summaryRoute (c : Cache Nat) (t : Nat) (orc : Int → FetchResult Nat)
    (idsParam : String) : SummaryRouteResult :=
  let ids := parseIds idsParam
  if ids.isEmpty then .badRequest
  else .okJson (summaryRun t orc c ids).1

/-! ## Injectivity of the outbound URLs

`entry/${id}/` and `entry/${id}/history/` are injective in the id, because the
decimal rendering of an integer is injective.  This is proved by a value
round-trip through `Nat.toDigits`. -/

/-- `Nat.toDigitsCore` emits its accumulator behind the digits it produces. -/
lemma toDigitsCore_acc (b : Nat) :
    ∀ (fuel n : Nat) (acc : List Char),
      Nat.toDigitsCore b fuel n acc = Nat.toDigitsCore b fuel n [] ++ acc := by
  intro fuel
  induction fuel with
  | zero => intro n acc; rfl
  | succ f ih =>
    intro n acc
    have hu : ∀ (m : Nat) (a : List Char), Nat.toDigitsCore b (f + 1) m a =
        if m / b = 0 then Nat.digitChar (m % b) :: a
        else Nat.toDigitsCore b f (m / b) (Nat.digitChar (m % b) :: a) := fun _ _ => rfl
    rw [hu, hu]
    by_cases h : n / b = 0
    · simp [h]
    · rw [if_neg h, if_neg h]
      rw [ih (n / b) (Nat.digitChar (n % b) :: acc), ih (n / b) [Nat.digitChar (n % b)]]
      simp

/-- Any sufficient fuel computes the same digit list. -/
lemma toDigitsCore_fuel :
    ∀ (n fuel₁ fuel₂ : Nat), n < fuel₁ → n < fuel₂ →
      Nat.toDigitsCore 10 fuel₁ n [] = Nat.toDigitsCore 10 fuel₂ n [] := by
  intro n
  induction n using Nat.strong_induction_on with
  | _ n ih =>
    intro fuel₁ fuel₂ h₁ h₂
    cases fuel₁ with
    | zero => omega
    | succ f₁ =>
      cases fuel₂ with
      | zero => omega
      | succ f₂ =>
        have hu : ∀ (f : Nat), Nat.toDigitsCore 10 (f + 1) n [] =
            if n / 10 = 0 then [Nat.digitChar (n % 10)]
            else Nat.toDigitsCore 10 f (n / 10) [Nat.digitChar (n % 10)] := fun _ => rfl
        rw [hu f₁, hu f₂]
        by_cases h : n / 10 = 0
        · rw [if_pos h, if_pos h]
        · rw [if_neg h, if_neg h]
          rw [toDigitsCore_acc 10 f₁ (n / 10) [Nat.digitChar (n % 10)],
              toDigitsCore_acc 10 f₂ (n / 10) [Nat.digitChar (n % 10)]]
          have hlt : n / 10 < n := Nat.div_lt_self (by omega) (by omega)
          rw [ih (n / 10) hlt f₁ f₂ (by omega) (by omega)]

/-- Canonical recurrence for `Nat.toDigits 10`. -/
lemma toDigits_eq (n : Nat) :
    Nat.toDigits 10 n =
      if n < 10 then [Nat.digitChar n]
      else Nat.toDigits 10 (n / 10) ++ [Nat.digitChar (n % 10)] := by
  have hu : Nat.toDigits 10 n =
      if n / 10 = 0 then [Nat.digitChar (n % 10)]
      else Nat.toDigitsCore 10 n (n / 10) [Nat.digitChar (n % 10)] := rfl
  rw [hu]
  by_cases h : n < 10
  · rw [if_pos (by omega), if_pos h, Nat.mod_eq_of_lt h]
  · rw [if_neg (by omega), if_neg h]
    rw [toDigitsCore_acc 10 n (n / 10) [Nat.digitChar (n % 10)]]
    rw [toDigitsCore_fuel (n / 10) n (n / 10 + 1) (by omega) (by omega)]
    rfl

/-- Big-endian value of a digit-character list. -/
def digitsVal (ds : List Char) : Nat :=
  ds.foldl (fun a c => a * 10 + (c.toNat - 48)) 0

/-- Value of a single digit character below 10. -/
lemma digitChar_val (d : Nat) (h : d < 10) : (Nat.digitChar d).toNat - 48 = d := by
  interval_cases d <;> rfl

/-- The decimal digits of `n` evaluate back to `n`. -/
lemma digitsVal_toDigits : ∀ n : Nat, digitsVal (Nat.toDigits 10 n) = n := by
  intro n
  induction n using Nat.strong_induction_on with
  | _ n ih =>
    rw [show digitsVal (Nat.toDigits 10 n) =
        digitsVal (if n < 10 then [Nat.digitChar n]
          else Nat.toDigits 10 (n / 10) ++ [Nat.digitChar (n % 10)]) from by rw [← toDigits_eq]]
    by_cases h : n < 10
    · rw [if_pos h]
      show 0 * 10 + ((Nat.digitChar n).toNat - 48) = n
      rw [digitChar_val n h]
      omega
    · rw [if_neg h]
      unfold digitsVal
      rw [List.foldl_append]
      show digitsVal (Nat.toDigits 10 (n / 10)) * 10 + ((Nat.digitChar (n % 10)).toNat - 48) = n
      rw [digitChar_val (n % 10) (Nat.mod_lt n (by omega))]
      rw [ih (n / 10) (Nat.div_lt_self (by omega) (by omega))]
      omega

/-- `Nat.repr` is injective. -/
lemma natRepr_inj : ∀ {a b : Nat}, Nat.repr a = Nat.repr b → a = b := by
  intro a b h
  have hd : Nat.toDigits 10 a = Nat.toDigits 10 b := congrArg String.data h
  have hv := congrArg digitsVal hd
  rwa [digitsVal_toDigits, digitsVal_toDigits] at hv

/-- The decimal rendering of a natural number starts with a digit character. -/
lemma toDigits_head : ∀ n : Nat, ∃ d, d < 10 ∧
    ∃ rest, Nat.toDigits 10 n = Nat.digitChar d :: rest := by
  intro n
  induction n using Nat.strong_induction_on with
  | _ n ih =>
    rw [toDigits_eq n]
    by_cases h : n < 10
    · exact ⟨n, h, [], by rw [if_pos h]⟩
    · obtain ⟨d, hd, rest, hr⟩ := ih (n / 10) (Nat.div_lt_self (by omega) (by omega))
      exact ⟨d, hd, rest ++ [Nat.digitChar (n % 10)], by rw [if_neg h, hr]; rfl⟩

/-- A digit character is never the minus sign. -/
lemma digitChar_ne_minus (d : Nat) (h : d < 10) : Nat.digitChar d ≠ '-' := by
  interval_cases d <;> decide

/-- The decimal rendering `toString : Int → String` is injective. -/
lemma intToString_inj : ∀ {a b : Int}, toString a = toString b → a = b := by
  have hdigit : ∀ (m m' : Nat), Nat.toDigits 10 m = '-' :: Nat.toDigits 10 (m' + 1) → False := by
    intro m m' hd
    obtain ⟨d, hd10, rest, hr⟩ := toDigits_head m
    rw [hr] at hd
    injection hd with h1 _
    exact digitChar_ne_minus d hd10 h1
  intro a b h
  cases a with
  | ofNat m =>
    cases b with
    | ofNat m' =>
      have hm : Nat.repr m = Nat.repr m' := h
      rw [natRepr_inj hm]
    | negSucc m' =>
      exact absurd (congrArg String.data h) (fun hd => hdigit m m' hd)
  | negSucc m =>
    cases b with
    | ofNat m' =>
      exact absurd (congrArg String.data h.symm) (fun hd => hdigit m' m hd)
    | negSucc m' =>
      have hd : '-' :: Nat.toDigits 10 (m + 1) = '-' :: Nat.toDigits 10 (m' + 1) :=
        congrArg String.data h
      injection hd with _ h2
      have hv := congrArg digitsVal h2
      rw [digitsVal_toDigits, digitsVal_toDigits] at hv
      have hm : m = m' := by omega
      rw [hm]

/-- Appending two strings concatenates their character lists. -/
lemma str_data_append (a b : String) : (a ++ b).data = a.data ++ b.data := by
  cases a
  cases b
  rfl

/-- Strings with the same character list are equal. -/
lemma str_ext {x y : String} (h : x.data = y.data) : x = y := by
  cases x
  cases y
  exact congrArg String.mk h

/-- An integer is determined by its rendering between fixed affixes. -/
lemma affixed_toString_inj (p s : String) {a b : Int}
    (h : p ++ toString a ++ s = p ++ toString b ++ s) : a = b := by
  have hd := congrArg String.data h
  rw [str_data_append, str_data_append, str_data_append, str_data_append] at hd
  have h1 := List.append_cancel_right hd
  have h2 := List.append_cancel_left h1
  exact intToString_inj (str_ext h2)

/-- `entry/${id}/` determines the id. -/
lemma sumUrl_inj {a b : Int} (h : sumUrl a = sumUrl b) : a = b :=
  affixed_toString_inj (API_BASE ++ "entry/") "/" h

/-- `entry/${id}/history/` determines the id. -/
lemma histUrl_inj {a b : Int} (h : histUrl a = histUrl b) : a = b :=
  affixed_toString_inj (API_BASE ++ "entry/") "/history/" h

/-! ## Theorems -/

/-- Claim C2: a `setCache(key, value, ttl)` write is served by `getFresh` until
`ttl` elapses, but — contrary to the claim — once `ttl` elapses `getStale` does
NOT keep returning the value until the 12-hour stale horizon: lru-cache was
given the per-item ttl (with `ttlAutopurge` and without `allowStale`), so
`cache.get` already returns undefined for the expired entry and `getStale`'s
own horizon check never sees it.  Concretely, an entry written at t=0 with the
HISTORY ttl (5 min) is absent from `getStale` at t=1h, although 1h is within
the 12h horizon and the spec's own stale contract (`specGetStale`) still
returns it. -/
theorem c2_stale_read_dead_after_ttl :
    getFresh (setCache ([] : Cache Nat) 0 "u" 7 TTL_HISTORY) 1000 "u" = some 7 ∧
    getFresh (setCache ([] : Cache Nat) 0 "u" 7 TTL_HISTORY) TTL_HISTORY "u" = some 7 ∧
    getFresh (setCache ([] : Cache Nat) 0 "u" 7 TTL_HISTORY) (TTL_HISTORY + 1) "u" = none ∧
    getStale (setCache ([] : Cache Nat) 0 "u" 7 TTL_HISTORY) 3600000 "u" = none ∧
    specGetStale (setCache ([] : Cache Nat) 0 "u" 7 TTL_HISTORY) 3600000 "u" = some 7 ∧
    3600000 ≤ STALE_MS := by
  decide

/-- Claim C4: the spec's stale-fallback scenario fails on the code.  With a
cache entry written at t=0 with the HISTORY ttl and an upstream 500 at t=1h
(within the 12h horizon), the pipeline does not respond 200 with the stale
payload and the degraded markers: the entry has already expired out of
lru-cache (see C2), `getStale` misses, and the 500 is propagated verbatim.
`specC4Behavior` — the claim's asserted behaviour at this input — evaluates to
false. -/
theorem c4_stale_fallback_unreachable :
    (apiHandler (setCache ([] : Cache Nat) 0 (targetUrl "entry/1/history/") 9 TTL_HISTORY)
        3600000 "entry/1/history/" (.ok 500 77)).1 =
      { status := 500, body := .send 77 } ∧
    getStale (setCache ([] : Cache Nat) 0 (targetUrl "entry/1/history/") 9 TTL_HISTORY)
        3600000 (targetUrl "entry/1/history/") = none ∧
    specGetStale (setCache ([] : Cache Nat) 0 (targetUrl "entry/1/history/") 9 TTL_HISTORY)
        3600000 (targetUrl "entry/1/history/") = some 9 ∧
    specC4Behavior (setCache ([] : Cache Nat) 0 (targetUrl "entry/1/history/") 9 TTL_HISTORY)
        3600000 "entry/1/history/" (.ok 500 77) = false := by
  decide

/-- Claim C5: the aggregate history endpoint violates the cache invariant.  On
a cache miss it caches `(await fetchUpstream(...)).data` without inspecting the
status, so the body of a non-retryable non-2xx response — here a 404 — is
written to the cache (and the entry is even reported `ok: true`). -/
theorem c5_history_caches_non2xx :
    (historyStep ([] : Cache HistData) 0 1 5 (.ok 404 ⟨[]⟩)).2 =
      [("c:" ++ histUrl 5, ⟨0, TTL_HISTORY, ⟨[]⟩⟩)] ∧
    getFresh (historyStep ([] : Cache HistData) 0 1 5 (.ok 404 ⟨[]⟩)).2 0 (histUrl 5) =
      some ⟨[]⟩ ∧
    (historyStep ([] : Cache HistData) 0 1 5 (.ok 404 ⟨[]⟩)).1 = { id := 5, ok := true } ∧
    ¬ (200 ≤ 404 ∧ 404 < 300) := by
  decide

/-- Claim C6, counterexample: dispatch spacing does not hold of consecutive
dispatches in general.  With C=1 and D=200: task 1 is enqueued and dispatched
at t=0 and completes at t=100; a `schedule` call at t=101 pumps synchronously
and dispatches task 2 at t=101, only 1 ms after the previous dispatch's
completion. -/
theorem c6_spacing_counterexample :
    specDispatchSpacing ⟨1, 200⟩ [.enqueue 0 1, .complete 100 1, .enqueue 101 2] = false := by
  decide

/-- Claim C8, counterexample: part_001's header-variant fetcher issues two
HTTP calls inside one attempt iteration, so with `attempts = 1` and an
upstream that always answers 429 it makes 2 calls, exceeding the budget. -/
theorem c8_budget_counterexample :
    fetchCallsPt1 false 1 (fun _ => UpOutcome.resp 429 (0 : Nat)) = 2 ∧
    ¬ fetchCallsPt1 false 1 (fun _ => UpOutcome.resp 429 (0 : Nat)) ≤ 1 := by
  decide

/-- `pump` preserves the counting invariant: it increments `active` only after
checking `active < UPSTREAM_CONCURRENCY`, and it starts exactly the task it
counts. -/
lemma pump_schedInv (cfg : SchedCfg) (s : SchedState) (t : Nat) (cause : DispatchCause)
    (h1 : s.active = s.running.length) (h2 : s.active ≤ cfg.conc) :
    (pump cfg s t cause).active = (pump cfg s t cause).running.length ∧
    (pump cfg s t cause).active ≤ cfg.conc := by
  unfold pump
  split
  · exact ⟨h1, h2⟩
  · split
    · exact ⟨h1, h2⟩
    · refine ⟨by simp [h1], ?_⟩
      dsimp only
      omega

/-- Each event step preserves the counting invariant. -/
lemma step_schedInv (cfg : SchedCfg) (s s' : SchedState) (e : SEvent)
    (h1 : s.active = s.running.length) (h2 : s.active ≤ cfg.conc)
    (hs : step cfg s e = some s') :
    s'.active = s'.running.length ∧ s'.active ≤ cfg.conc := by
  cases e with
  | enqueue t id =>
    simp only [step] at hs
    split at hs
    · cases hs
      exact pump_schedInv cfg _ t .enq h1 h2
    · cases hs
  | complete t id =>
    simp only [step] at hs
    split at hs
    · rename_i hcond
      cases hs
      constructor
      · dsimp only
        rw [h1, List.length_erase_of_mem hcond.2]
      · dsimp only
        omega
    · cases hs
  | timerFire t tc =>
    simp only [step] at hs
    split at hs
    · cases hs
      exact pump_schedInv cfg _ t (.afterCompletion tc) h1 h2
    · cases hs

/-- Running any event sequence preserves the counting invariant. -/
lemma runSched_schedInv (cfg : SchedCfg) (evs : List SEvent) :
    ∀ s0 s : SchedState,
      s0.active = s0.running.length → s0.active ≤ cfg.conc →
      runSched cfg s0 evs = some s →
      s.active = s.running.length ∧ s.active ≤ cfg.conc := by
  induction evs with
  | nil =>
    intro s0 s h1 h2 hr
    unfold runSched at hr
    cases hr
    exact ⟨h1, h2⟩
  | cons e rest ih =>
    intro s0 s h1 h2 hr
    unfold runSched at hr
    rcases hstep : step cfg s0 e with _ | s1
    · rw [hstep] at hr
      cases hr
    · rw [hstep] at hr
      obtain ⟨g1, g2⟩ := step_schedInv cfg s0 s1 e h1 h2 hstep
      exact ih s1 s g1 g2 hr

/-- Claim C1: for every configuration and every well-formed execution of the
scheduler (any interleaving of `schedule` calls, task completions and pump
timer firings), the `active` counter never exceeds `UPSTREAM_CONCURRENCY`, and
the number of concurrently running dispatched tasks never exceeds it either:
`pump` checks `active >= UPSTREAM_CONCURRENCY` before shifting the queue, and
the check, the shift and the increment run synchronously with no suspension
point between them. -/
theorem c1_scheduler_concurrency_bound (cfg : SchedCfg) (evs : List SEvent) (s : SchedState)
    (h : runSched cfg initState evs = some s) :
    s.active ≤ cfg.conc ∧ s.running.length ≤ cfg.conc := by
  obtain ⟨h1, h2⟩ := runSched_schedInv cfg evs initState s rfl (Nat.zero_le _) h
  exact ⟨h2, h1 ▸ h2⟩

/-- Witness for C1: a burst of 4 `schedule` calls at t=0 under C=2 dispatches
only tasks 1 and 2 and leaves 3 and 4 queued, with `active = 2 ≤ C`. -/
theorem c1_scheduler_concurrency_bound_witness :
    runSched ⟨2, 200⟩ initState [.enqueue 0 1, .enqueue 0 2, .enqueue 0 3, .enqueue 0 4] =
      some ⟨2, [3, 4], [2, 1], [], [⟨0, 1, .enq⟩, ⟨0, 2, .enq⟩], 0⟩ ∧
    (⟨2, [3, 4], [2, 1], [], [⟨0, 1, .enq⟩, ⟨0, 2, .enq⟩], 0⟩ : SchedState).active ≤ 2 ∧
    (⟨2, [3, 4], [2, 1], [], [⟨0, 1, .enq⟩, ⟨0, 2, .enq⟩], 0⟩ : SchedState).running.length ≤ 2 := by
  refine ⟨by decide, ?_⟩
  exact c1_scheduler_concurrency_bound ⟨2, 200⟩
    [.enqueue 0 1, .enqueue 0 2, .enqueue 0 3, .enqueue 0 4]
    ⟨2, [3, 4], [2, 1], [], [⟨0, 1, .enq⟩, ⟨0, 2, .enq⟩], 0⟩ (by decide)

/-- `pump` only appends a dispatch whose cause obligation is already met. -/
lemma pump_timed (cfg : SchedCfg) (s : SchedState) (t : Nat) (cause : DispatchCause)
    (hok : ∀ tc, cause = .afterCompletion tc → tc + cfg.delay ≤ t)
    (h : ∀ d ∈ s.dispatches, ∀ tc, d.cause = .afterCompletion tc → tc + cfg.delay ≤ d.time) :
    ∀ d ∈ (pump cfg s t cause).dispatches, ∀ tc,
      d.cause = .afterCompletion tc → tc + cfg.delay ≤ d.time := by
  unfold pump
  split
  · exact h
  · split
    · exact h
    · intro d hd tc htc
      rcases List.mem_append.mp hd with hmem | hmem
      · exact h d hmem tc htc
      · rw [List.mem_singleton] at hmem
        subst hmem
        exact hok tc htc

/-- Each event step preserves the timer-spacing property of the dispatch log:
a timer fired at `t` satisfies `tc + D ≤ t` by the `setTimeout` contract. -/
lemma step_timed (cfg : SchedCfg) (s s' : SchedState) (e : SEvent)
    (hs : step cfg s e = some s')
    (h : ∀ d ∈ s.dispatches, ∀ tc, d.cause = .afterCompletion tc → tc + cfg.delay ≤ d.time) :
    ∀ d ∈ s'.dispatches, ∀ tc, d.cause = .afterCompletion tc → tc + cfg.delay ≤ d.time := by
  cases e with
  | enqueue t id =>
    simp only [step] at hs
    split at hs
    · cases hs
      exact pump_timed cfg _ t .enq (fun tc htc => by cases htc) h
    · cases hs
  | complete t id =>
    simp only [step] at hs
    split at hs
    · cases hs
      exact h
    · cases hs
  | timerFire t tc =>
    simp only [step] at hs
    split at hs
    · rename_i hcond
      cases hs
      refine pump_timed cfg _ t (.afterCompletion tc) ?_ h
      intro tc' htc'
      cases htc'
      exact hcond.2.2
    · cases hs

/-- Running any event sequence preserves the timer-spacing property. -/
lemma runSched_timed (cfg : SchedCfg) (evs : List SEvent) :
    ∀ s0 s : SchedState,
      (∀ d ∈ s0.dispatches, ∀ tc, d.cause = .afterCompletion tc → tc + cfg.delay ≤ d.time) →
      runSched cfg s0 evs = some s →
      ∀ d ∈ s.dispatches, ∀ tc, d.cause = .afterCompletion tc → tc + cfg.delay ≤ d.time := by
  induction evs with
  | nil =>
    intro s0 s h0 hr
    unfold runSched at hr
    cases hr
    exact h0
  | cons e rest ih =>
    intro s0 s h0 hr
    unfold runSched at hr
    rcases hstep : step cfg s0 e with _ | s1
    · rw [hstep] at hr
      cases hr
    · rw [hstep] at hr
      exact ih s1 s (step_timed cfg s0 s1 e hstep h0) hr

/-- Claim C6, amended: the `D`-millisecond spacing holds exactly of the
dispatches performed by the `setTimeout(pump, D)` armed on a completion — such
a dispatch starts at least `D` ms after that completion.  A dispatch performed
by the synchronous `pump()` inside `schedule()` is not delayed (see the
counterexample), so the spacing does not hold of arbitrary consecutive
dispatches. -/
theorem c6_timer_dispatch_spacing (cfg : SchedCfg) (evs : List SEvent) (s : SchedState)
    (h : runSched cfg initState evs = some s) :
    ∀ d ∈ s.dispatches, ∀ tc, d.cause = .afterCompletion tc → tc + cfg.delay ≤ d.time :=
  runSched_timed cfg evs initState s (by intro d hd; cases hd) h

/-- Witness for the amended C6: with C=1, D=200, task 2 queued behind task 1 is
dispatched by the pump timer armed at task 1's completion (t=50) and starts at
t=250, i.e. at least 200 ms later. -/
theorem c6_timer_dispatch_spacing_witness :
    runSched ⟨1, 200⟩ initState [.enqueue 0 1, .enqueue 10 2, .complete 50 1, .timerFire 250 50] =
      some ⟨1, [], [2], [], [⟨0, 1, .enq⟩, ⟨250, 2, .afterCompletion 50⟩], 250⟩ ∧
    50 + 200 ≤ 250 := by
  refine ⟨by decide, ?_⟩
  exact c6_timer_dispatch_spacing ⟨1, 200⟩
    [.enqueue 0 1, .enqueue 10 2, .complete 50 1, .timerFire 250 50]
    ⟨1, [], [2], [], [⟨0, 1, .enq⟩, ⟨250, 2, .afterCompletion 50⟩], 250⟩ (by decide)
    ⟨250, 2, .afterCompletion 50⟩ (by decide) 50 rfl

/-- The code's `retryable` test agrees with the spec's wording of the
retryable classes. -/
lemma retryable_eq_true_iff (sv : Bool) (s : Nat) :
    retryable sv s = true ↔ specRetryableStatus sv s := by
  unfold retryable specRetryableStatus
  cases sv <;> simp
  tauto

/-- Each fetch-loop call index is a lower bound on the final call count. -/
lemma fetchLoopPt0_snd_ge {α : Type} (sv : Bool) (orc : Nat → UpOutcome α) :
    ∀ (k ci : Nat) (last : Option (UpOutcome α)),
      ci ≤ (fetchLoopPt0 sv orc ci k last).2 := by
  intro k
  induction k with
  | zero => intro ci last; exact Nat.le_refl _
  | succ k' ih =>
    intro ci last
    unfold fetchLoopPt0
    rcases ho : orc ci with ⟨s, b⟩ | e
    · dsimp only
      split
      · exact le_trans (Nat.le_succ ci) (ih (ci + 1) _)
      · exact Nat.le_succ ci
    · exact le_trans (Nat.le_succ ci) (ih (ci + 1) _)

/-- With a non-zero budget the loop issues at least one call. -/
lemma fetchLoopPt0_snd_ge_one {α : Type} (sv : Bool) (orc : Nat → UpOutcome α)
    (k ci : Nat) (last : Option (UpOutcome α)) (hk : 1 ≤ k) :
    ci + 1 ≤ (fetchLoopPt0 sv orc ci k last).2 := by
  cases k with
  | zero => omega
  | succ k' =>
    unfold fetchLoopPt0
    rcases ho : orc ci with ⟨s, b⟩ | e
    · dsimp only
      split
      · exact fetchLoopPt0_snd_ge sv orc k' (ci + 1) _
      · exact Nat.le_refl _
    · exact fetchLoopPt0_snd_ge sv orc k' (ci + 1) _

/-- part_000's loop never issues more calls than its budget. -/
lemma fetchLoopPt0_snd_le {α : Type} (sv : Bool) (orc : Nat → UpOutcome α) :
    ∀ (k ci : Nat) (last : Option (UpOutcome α)),
      (fetchLoopPt0 sv orc ci k last).2 ≤ ci + k := by
  intro k
  induction k with
  | zero => intro ci last; exact Nat.le_refl _
  | succ k' ih =>
    intro ci last
    unfold fetchLoopPt0
    rcases ho : orc ci with ⟨s, b⟩ | e
    · dsimp only
      split
      · exact le_trans (ih (ci + 1) _) (by omega)
      · omega
    · exact le_trans (ih (ci + 1) _) (by omega)

/-- part_001's loop issues at most two calls per attempt iteration. -/
lemma fetchLoopPt1_snd_le {α : Type} (sv : Bool) (orc : Nat → UpOutcome α) :
    ∀ (k ci : Nat) (last : Option (UpOutcome α)),
      (fetchLoopPt1 sv orc ci k last).2 ≤ ci + 2 * k := by
  intro k
  induction k with
  | zero => intro ci last; exact Nat.le_refl _
  | succ k' ih =>
    intro ci last
    unfold fetchLoopPt1
    dsimp only
    rcases ho : orc ci with ⟨s, b⟩ | e <;>
      rcases ho2 : orc (ci + 1) with ⟨s2, b2⟩ | e2 <;> dsimp only <;>
      repeat' split
    all_goals first
      | omega
      | exact le_trans (ih (ci + 2) _) (by omega)

/-- part_000's loop returns the first non-retryable response at once: if the
first `d` outcomes are retryable-or-erroring and the `d`-th call answers a
non-retryable status, the loop returns that response after exactly `d + 1`
calls. -/
lemma fetchLoopPt0_ok {α : Type} (sv : Bool) (orc : Nat → UpOutcome α) :
    ∀ (d k ci : Nat) (last : Option (UpOutcome α)),
      (∀ j, j < d → specRetryableOutcome sv (orc (ci + j))) →
      d < k →
      ∀ (s : Nat) (b : α), orc (ci + d) = .resp s b → retryable sv s = false →
      fetchLoopPt0 sv orc ci k last = (.ok s b, ci + d + 1) := by
  intro d
  induction d with
  | zero =>
    intro k ci last _ hk s b ho hr
    cases k with
    | zero => omega
    | succ k' =>
      unfold fetchLoopPt0
      rw [show ci + 0 = ci from rfl] at ho
      rw [ho]
      dsimp only
      rw [if_neg (by simp [hr])]
  | succ d' ih =>
    intro k ci last hprev hk s b ho hr
    cases k with
    | zero => omega
    | succ k' =>
      have h0 : specRetryableOutcome sv (orc ci) := by
        simpa using hprev 0 (Nat.succ_pos _)
      have hshift : ∀ j, j < d' → specRetryableOutcome sv (orc (ci + 1 + j)) := by
        intro j hj
        have := hprev (j + 1) (by omega)
        have e : ci + (j + 1) = ci + 1 + j := by omega
        rwa [e] at this
      have hoe : orc (ci + 1 + d') = .resp s b := by
        have e : ci + (d' + 1) = ci + 1 + d' := by omega
        rwa [e] at ho
      unfold fetchLoopPt0
      rcases ho0 : orc ci with ⟨s0, b0⟩ | e0
      · rw [ho0] at h0
        have hr0 : retryable sv s0 = true := (retryable_eq_true_iff sv s0).mpr h0
        dsimp only
        rw [if_pos hr0]
        rw [ih k' (ci + 1) _ hshift (by omega) s b hoe hr]
        refine Prod.ext rfl ?_
        dsimp only
        omega
      · dsimp only
        rw [ih k' (ci + 1) _ hshift (by omega) s b hoe hr]
        refine Prod.ext rfl ?_
        dsimp only
        omega

/-- index.js's loop likewise returns the first non-retryable response after
exactly `d + 1` calls. -/
lemma fetchLoopIdx_ok {α : Type} (sv : Bool) (orc : Nat → UpOutcome α) :
    ∀ (d k ci : Nat) (le : Option Nat),
      (∀ j, j < d → specRetryableOutcome sv (orc (ci + j))) →
      d < k →
      ∀ (s : Nat) (b : α), orc (ci + d) = .resp s b → retryable sv s = false →
      fetchLoopIdx sv orc ci k le = (.ok s b, ci + d + 1) := by
  intro d
  induction d with
  | zero =>
    intro k ci le _ hk s b ho hr
    cases k with
    | zero => omega
    | succ k' =>
      unfold fetchLoopIdx
      rw [show ci + 0 = ci from rfl] at ho
      rw [ho]
      dsimp only
      rw [if_neg (by simp [hr])]
  | succ d' ih =>
    intro k ci le hprev hk s b ho hr
    cases k with
    | zero => omega
    | succ k' =>
      have h0 : specRetryableOutcome sv (orc ci) := by
        simpa using hprev 0 (Nat.succ_pos _)
      have hshift : ∀ j, j < d' → specRetryableOutcome sv (orc (ci + 1 + j)) := by
        intro j hj
        have := hprev (j + 1) (by omega)
        have e : ci + (j + 1) = ci + 1 + j := by omega
        rwa [e] at this
      have hoe : orc (ci + 1 + d') = .resp s b := by
        have e : ci + (d' + 1) = ci + 1 + d' := by omega
        rwa [e] at ho
      have hk' : 0 < k' := by omega
      unfold fetchLoopIdx
      rcases ho0 : orc ci with ⟨s0, b0⟩ | e0
      · rw [ho0] at h0
        have hr0 : retryable sv s0 = true := (retryable_eq_true_iff sv s0).mpr h0
        dsimp only
        rw [if_pos hr0, if_pos hk']
        rw [ih k' (ci + 1) _ hshift (by omega) s b hoe hr]
        refine Prod.ext rfl ?_
        dsimp only
        omega
      · dsimp only
        rw [if_pos hk']
        rw [ih k' (ci + 1) _ hshift (by omega) s b hoe hr]
        refine Prod.ext rfl ?_
        dsimp only
        omega

/-- Call-index lower bound for index.js's loop. -/
lemma fetchLoopIdx_snd_ge {α : Type} (sv : Bool) (orc : Nat → UpOutcome α) :
    ∀ (k ci : Nat) (le : Option Nat), ci ≤ (fetchLoopIdx sv orc ci k le).2 := by
  intro k
  induction k with
  | zero => intro ci le; exact Nat.le_refl _
  | succ k' ih =>
    intro ci le
    unfold fetchLoopIdx
    rcases ho : orc ci with ⟨s, b⟩ | e <;> dsimp only <;> repeat' split
    all_goals first
      | exact Nat.le_succ ci
      | exact le_trans (Nat.le_succ ci) (ih (ci + 1) _)

/-- index.js's loop never issues more calls than its budget. -/
lemma fetchLoopIdx_snd_le {α : Type} (sv : Bool) (orc : Nat → UpOutcome α) :
    ∀ (k ci : Nat) (le : Option Nat), (fetchLoopIdx sv orc ci k le).2 ≤ ci + k := by
  intro k
  induction k with
  | zero => intro ci le; exact Nat.le_refl _
  | succ k' ih =>
    intro ci le
    unfold fetchLoopIdx
    rcases ho : orc ci with ⟨s, b⟩ | e <;> dsimp only <;> repeat' split
    all_goals first
      | omega
      | exact le_trans (ih (ci + 1) _) (by omega)

/-- With a non-zero budget index.js's loop issues at least one call. -/
lemma fetchLoopIdx_snd_ge_one {α : Type} (sv : Bool) (orc : Nat → UpOutcome α)
    (k ci : Nat) (le : Option Nat) (hk : 1 ≤ k) :
    ci + 1 ≤ (fetchLoopIdx sv orc ci k le).2 := by
  cases k with
  | zero => omega
  | succ k' =>
    unfold fetchLoopIdx
    rcases ho : orc ci with ⟨s, b⟩ | e <;> dsimp only <;> repeat' split
    all_goals first
      | exact Nat.le_refl _
      | exact fetchLoopIdx_snd_ge sv orc k' (ci + 1) _

/-- A retryable outcome with budget remaining forces a further call: if the
outcomes of calls `ci..ci+i` are all retryable-or-erroring and more than `i+1`
attempts remain, part_000's loop issues at least `i+2` calls from `ci`. -/
lemma fetchLoopPt0_retry_consumes {α : Type} (sv : Bool) (orc : Nat → UpOutcome α) :
    ∀ (i k ci : Nat) (last : Option (UpOutcome α)),
      (∀ j, j ≤ i → specRetryableOutcome sv (orc (ci + j))) →
      i + 1 < k → ci + i + 2 ≤ (fetchLoopPt0 sv orc ci k last).2 := by
  intro i
  induction i with
  | zero =>
    intro k ci last hall hk
    cases k with
    | zero => omega
    | succ k' =>
      have h0 : specRetryableOutcome sv (orc ci) := by
        simpa using hall 0 (Nat.le_refl _)
      unfold fetchLoopPt0
      rcases ho0 : orc ci with ⟨s0, b0⟩ | e0
      · rw [ho0] at h0
        have hr0 : retryable sv s0 = true := (retryable_eq_true_iff sv s0).mpr h0
        dsimp only
        rw [if_pos hr0]
        have := fetchLoopPt0_snd_ge_one sv orc k' (ci + 1) (some (.resp s0 b0)) (by omega)
        omega
      · dsimp only
        have := fetchLoopPt0_snd_ge_one sv orc k' (ci + 1) (some (.err e0)) (by omega)
        omega
  | succ i' ih =>
    intro k ci last hall hk
    cases k with
    | zero => omega
    | succ k' =>
      have h0 : specRetryableOutcome sv (orc ci) := by
        simpa using hall 0 (Nat.zero_le _)
      have hshift : ∀ j, j ≤ i' → specRetryableOutcome sv (orc (ci + 1 + j)) := by
        intro j hj
        have := hall (j + 1) (by omega)
        have e : ci + (j + 1) = ci + 1 + j := by omega
        rwa [e] at this
      unfold fetchLoopPt0
      rcases ho0 : orc ci with ⟨s0, b0⟩ | e0
      · rw [ho0] at h0
        have hr0 : retryable sv s0 = true := (retryable_eq_true_iff sv s0).mpr h0
        dsimp only
        rw [if_pos hr0]
        have := ih k' (ci + 1) (some (.resp s0 b0)) hshift (by omega)
        omega
      · dsimp only
        have := ih k' (ci + 1) (some (.err e0)) hshift (by omega)
        omega

/-- The same forced-retry lower bound for index.js's loop. -/
lemma fetchLoopIdx_retry_consumes {α : Type} (sv : Bool) (orc : Nat → UpOutcome α) :
    ∀ (i k ci : Nat) (le : Option Nat),
      (∀ j, j ≤ i → specRetryableOutcome sv (orc (ci + j))) →
      i + 1 < k → ci + i + 2 ≤ (fetchLoopIdx sv orc ci k le).2 := by
  intro i
  induction i with
  | zero =>
    intro k ci le hall hk
    cases k with
    | zero => omega
    | succ k' =>
      have h0 : specRetryableOutcome sv (orc ci) := by
        simpa using hall 0 (Nat.le_refl _)
      have hk' : 0 < k' := by omega
      unfold fetchLoopIdx
      rcases ho0 : orc ci with ⟨s0, b0⟩ | e0
      · rw [ho0] at h0
        have hr0 : retryable sv s0 = true := (retryable_eq_true_iff sv s0).mpr h0
        dsimp only
        rw [if_pos hr0, if_pos hk']
        have := fetchLoopIdx_snd_ge_one sv orc k' (ci + 1) le (by omega)
        omega
      · dsimp only
        rw [if_pos hk']
        have := fetchLoopIdx_snd_ge_one sv orc k' (ci + 1) (some e0) (by omega)
        omega
  | succ i' ih =>
    intro k ci le hall hk
    cases k with
    | zero => omega
    | succ k' =>
      have h0 : specRetryableOutcome sv (orc ci) := by
        simpa using hall 0 (Nat.zero_le _)
      have hshift : ∀ j, j ≤ i' → specRetryableOutcome sv (orc (ci + 1 + j)) := by
        intro j hj
        have := hall (j + 1) (by omega)
        have e : ci + (j + 1) = ci + 1 + j := by omega
        rwa [e] at this
      have hk' : 0 < k' := by omega
      unfold fetchLoopIdx
      rcases ho0 : orc ci with ⟨s0, b0⟩ | e0
      · rw [ho0] at h0
        have hr0 : retryable sv s0 = true := (retryable_eq_true_iff sv s0).mpr h0
        dsimp only
        rw [if_pos hr0, if_pos hk']
        have := ih k' (ci + 1) le hshift (by omega)
        omega
      · dsimp only
        rw [if_pos hk']
        have := ih k' (ci + 1) (some e0) hshift (by omega)
        omega

/-- Exhaustion in part_000's loop: when every budgeted outcome is
retryable-or-erroring, the loop throws exactly the last outcome observed. -/
lemma fetchLoopPt0_exhaust {α : Type} (sv : Bool) (orc : Nat → UpOutcome α) :
    ∀ (k ci : Nat) (last : Option (UpOutcome α)), 0 < k →
      (∀ j, j < k → specRetryableOutcome sv (orc (ci + j))) →
      fetchLoopPt0 sv orc ci k last = (.thrown (some (orc (ci + k - 1))), ci + k) := by
  intro k
  induction k with
  | zero => intro ci last h0; omega
  | succ k' ih =>
    intro ci last _ hall
    have h0 : specRetryableOutcome sv (orc ci) := by
      simpa using hall 0 (Nat.succ_pos _)
    have hshift : ∀ j, j < k' → specRetryableOutcome sv (orc (ci + 1 + j)) := by
      intro j hj
      have := hall (j + 1) (by omega)
      have e : ci + (j + 1) = ci + 1 + j := by omega
      rwa [e] at this
    unfold fetchLoopPt0
    rcases ho0 : orc ci with ⟨s0, b0⟩ | e0
    · rw [ho0] at h0
      have hr0 : retryable sv s0 = true := (retryable_eq_true_iff sv s0).mpr h0
      dsimp only
      rw [if_pos hr0]
      cases k' with
      | zero =>
        unfold fetchLoopPt0
        have e : ci + 1 - 1 = ci := by omega
        rw [e, ho0]
      | succ k'' =>
        rw [ih (ci + 1) (some (.resp s0 b0)) (Nat.succ_pos _) hshift]
        have e1 : ci + 1 + (k'' + 1) - 1 = ci + (k'' + 1 + 1) - 1 := by omega
        have e2 : ci + 1 + (k'' + 1) = ci + (k'' + 1 + 1) := by omega
        rw [e1, e2]
    · dsimp only
      cases k' with
      | zero =>
        unfold fetchLoopPt0
        have e : ci + 1 - 1 = ci := by omega
        rw [e, ho0]
      | succ k'' =>
        rw [ih (ci + 1) (some (.err e0)) (Nat.succ_pos _) hshift]
        have e1 : ci + 1 + (k'' + 1) - 1 = ci + (k'' + 1 + 1) - 1 := by omega
        have e2 : ci + 1 + (k'' + 1) = ci + (k'' + 1 + 1) := by omega
        rw [e1, e2]

/-- Exhaustion in index.js's loop: the last retryable response is returned
as-is, a last transport error is rethrown — in both cases the final outcome is
the one observed on the final call. -/
lemma fetchLoopIdx_exhaust {α : Type} (sv : Bool) (orc : Nat → UpOutcome α) :
    ∀ (k ci : Nat) (le : Option Nat), 0 < k →
      (∀ j, j < k → specRetryableOutcome sv (orc (ci + j))) →
      fetchLoopIdx sv orc ci k le =
        (match orc (ci + k - 1) with
         | .resp s b => (.ok s b, ci + k)
         | .err e => (.thrown (some (.err e)), ci + k)) := by
  intro k
  induction k with
  | zero => intro ci le h0; omega
  | succ k' ih =>
    intro ci le _ hall
    have h0 : specRetryableOutcome sv (orc ci) := by
      simpa using hall 0 (Nat.succ_pos _)
    have hshift : ∀ j, j < k' → specRetryableOutcome sv (orc (ci + 1 + j)) := by
      intro j hj
      have := hall (j + 1) (by omega)
      have e : ci + (j + 1) = ci + 1 + j := by omega
      rwa [e] at this
    unfold fetchLoopIdx
    rcases ho0 : orc ci with ⟨s0, b0⟩ | e0
    · rw [ho0] at h0
      have hr0 : retryable sv s0 = true := (retryable_eq_true_iff sv s0).mpr h0
      dsimp only
      rw [if_pos hr0]
      cases k' with
      | zero =>
        rw [if_neg (by omega)]
        have e : ci + 1 - 1 = ci := by omega
        rw [e, ho0]
      | succ k'' =>
        rw [if_pos (Nat.succ_pos _)]
        rw [ih (ci + 1) le (Nat.succ_pos _) hshift]
        have e1 : ci + 1 + (k'' + 1) - 1 = ci + (k'' + 1 + 1) - 1 := by omega
        have e2 : ci + 1 + (k'' + 1) = ci + (k'' + 1 + 1) := by omega
        rw [e1, e2]
    · dsimp only
      cases k' with
      | zero =>
        rw [if_neg (by omega)]
        have e : ci + 1 - 1 = ci := by omega
        rw [e, ho0]
      | succ k'' =>
        rw [if_pos (Nat.succ_pos _)]
        rw [ih (ci + 1) (some e0) (Nat.succ_pos _) hshift]
        have e1 : ci + 1 + (k'' + 1) - 1 = ci + (k'' + 1 + 1) - 1 := by omega
        have e2 : ci + 1 + (k'' + 1) = ci + (k'' + 1 + 1) := by omega
        rw [e1, e2]

/-- Claim C3: the fetcher retries an attempt exactly when the attempt's status
is 429, is >= 500, or is 403 with `sensitive` true.  If the first `i` attempt
outcomes are retryable-or-erroring and attempt `i` answers any other status
(including a non-sensitive 403, a 404 or a 2xx), both fetchers (index.js's
`fetchUpstreamWithRetries` and part_000's `fetchUpstream`) return that response
immediately as the result of the logical fetch, after exactly `i + 1` HTTP
calls; conversely, a retryable outcome at attempt `i` with budget remaining
forces at least one further call. -/
theorem c3_retry_policy (sv : Bool) (orc : Nat → UpOutcome Nat) (attempts i : Nat)
    (hi : i < attempts)
    (hprev : ∀ j, j < i → specRetryableOutcome sv (orc j)) :
    (∀ s b, orc i = .resp s b → ¬ specRetryableStatus sv s →
        (fetchUpstreamPt0 sv attempts orc = .ok s b ∧
         fetchCallsPt0 sv attempts orc = i + 1) ∧
        (fetchUpstreamIdx sv attempts orc = .ok s b ∧
         fetchCallsIdx sv attempts orc = i + 1)) ∧
    (specRetryableOutcome sv (orc i) → i + 1 < attempts →
        i + 2 ≤ fetchCallsPt0 sv attempts orc ∧
        i + 2 ≤ fetchCallsIdx sv attempts orc) := by
  have hprev0 : ∀ j, j < i → specRetryableOutcome sv (orc (0 + j)) := by
    intro j hj
    simpa using hprev j hj
  constructor
  · intro s b ho hns
    have hr : retryable sv s = false := by
      cases hb : retryable sv s
      · rfl
      · exact absurd ((retryable_eq_true_iff sv s).mp hb) hns
    have ho0 : orc (0 + i) = .resp s b := by simpa using ho
    have h1 := fetchLoopPt0_ok sv orc i attempts 0 none hprev0 hi s b ho0 hr
    have h2 := fetchLoopIdx_ok sv orc i attempts 0 none hprev0 hi s b ho0 hr
    unfold fetchUpstreamPt0 fetchCallsPt0 fetchUpstreamIdx fetchCallsIdx
    rw [h1, h2]
    exact ⟨⟨rfl, by omega⟩, rfl, by omega⟩
  · intro hcur hlt
    have hall : ∀ j, j ≤ i → specRetryableOutcome sv (orc (0 + j)) := by
      intro j hj
      rcases Nat.lt_or_ge j i with h | h
      · simpa using hprev j h
      · have hji : j = i := by omega
        subst hji
        simpa using hcur
    constructor
    · have := fetchLoopPt0_retry_consumes sv orc i attempts 0 none hall hlt
      unfold fetchCallsPt0
      omega
    · have := fetchLoopIdx_retry_consumes sv orc i attempts 0 none hall hlt
      unfold fetchCallsIdx
      omega

/-- Witness for C3: the spec's stub test — upstream answers 404 then 200, the
fetch is not sensitive — returns the 404 on the first attempt with no retry,
in both fetchers. -/
theorem c3_retry_policy_witness :
    (fetchUpstreamPt0 false 3 (fun i => if i = 0 then .resp 404 1 else .resp 200 2) =
        .ok 404 1 ∧
     fetchCallsPt0 false 3 (fun i => if i = 0 then .resp 404 1 else .resp 200 2) = 1) ∧
    (fetchUpstreamIdx false 3 (fun i => if i = 0 then .resp 404 1 else .resp 200 2) =
        .ok 404 1 ∧
     fetchCallsIdx false 3 (fun i => if i = 0 then .resp 404 1 else .resp 200 2) = 1) :=
  (c3_retry_policy false (fun i => if i = 0 then .resp 404 1 else .resp 200 2) 3 0
    (by decide) (by decide)).1 404 1 rfl (by decide)

/-- Claim C7: when every budgeted attempt of a logical fetch is a retryable
outcome or a transport error, the final outcome is exactly the outcome
observed on the final attempt — part_000's `fetchUpstream` throws it
(`throw last`), and index.js's `fetchUpstreamWithRetries` returns a last
retryable response as-is and rethrows a last transport error.  Neither
synthesizes a new response or error. -/
theorem c7_exhaustion_last_outcome (sv : Bool) (orc : Nat → UpOutcome Nat) (attempts : Nat)
    (h0 : 0 < attempts)
    (hall : ∀ j, j < attempts → specRetryableOutcome sv (orc j)) :
    fetchUpstreamPt0 sv attempts orc = .thrown (some (orc (attempts - 1))) ∧
    fetchUpstreamIdx sv attempts orc =
      (match orc (attempts - 1) with
       | .resp s b => .ok s b
       | .err e => .thrown (some (.err e))) := by
  have hall0 : ∀ j, j < attempts → specRetryableOutcome sv (orc (0 + j)) := by
    intro j hj
    simpa using hall j hj
  have e0 : 0 + attempts - 1 = attempts - 1 := by omega
  constructor
  · have h := fetchLoopPt0_exhaust sv orc attempts 0 none h0 hall0
    unfold fetchUpstreamPt0
    rw [h]
    rw [e0]
  · have h := fetchLoopIdx_exhaust sv orc attempts 0 none h0 hall0
    unfold fetchUpstreamIdx
    rw [h, e0]
    rcases horc : orc (attempts - 1) with ⟨s, b⟩ | e <;> rfl

/-- Witness for C7: a transport error then a 503 exhausts a 2-attempt fetch;
part_000's fetcher throws the 503 response (the last outcome observed) and
index.js's fetcher returns it. -/
theorem c7_exhaustion_last_outcome_witness :
    fetchUpstreamPt0 false 2 (fun i => if i = 0 then .err 3 else .resp 503 5) =
      .thrown (some (.resp 503 5)) ∧
    fetchUpstreamIdx false 2 (fun i => if i = 0 then .err 3 else .resp 503 5) =
      .ok 503 5 :=
  c7_exhaustion_last_outcome false (fun i => if i = 0 then .err 3 else .resp 503 5) 2
    (by decide) (by decide)

/-- Claim C8, amended: index.js's and part_000's fetchers issue at most
`attempts` HTTP calls per logical fetch; part_001's header-variant fetcher can
issue two calls per attempt iteration (full header set, then reduced set) and
is bounded by `2 * attempts` instead, exceeding `attempts` (see the
counterexample). -/
theorem c8_call_budget_bounds (sv : Bool) (orc : Nat → UpOutcome Nat) (attempts : Nat) :
    fetchCallsPt0 sv attempts orc ≤ attempts ∧
    fetchCallsIdx sv attempts orc ≤ attempts ∧
    fetchCallsPt1 sv attempts orc ≤ 2 * attempts := by
  refine ⟨?_, ?_, ?_⟩
  · have := fetchLoopPt0_snd_le sv orc attempts 0 none
    unfold fetchCallsPt0
    omega
  · have := fetchLoopIdx_snd_le sv orc attempts 0 none
    unfold fetchCallsIdx
    omega
  · have := fetchLoopPt1_snd_le sv orc attempts 0 none
    unfold fetchCallsPt1
    omega

/-- Filtering out bindings of a different key does not change a key's lookup. -/
lemma find?_filter_ne {α : Type} (l : List (String × CEntry α)) (k k' : String)
    (hne : k' ≠ k) :
    (l.filter (fun pr => pr.1 != k)).find? (fun pr => pr.1 == k') =
      l.find? (fun pr => pr.1 == k') := by
  induction l with
  | nil => rfl
  | cons hd tl ih =>
    by_cases h1 : hd.1 = k
    · have hb : (hd.1 != k) = false := by simp [h1]
      have hf : (hd.1 == k') = false := by
        simp only [beq_eq_false_iff_ne]
        rw [h1]
        exact fun e => hne e.symm
      simp [List.filter_cons, hb, List.find?, hf, ih]
    · have hb : (hd.1 != k) = true := by simp [h1]
      by_cases h2 : hd.1 = k'
      · have hf : (hd.1 == k') = true := by simp [h2]
        simp [List.filter_cons, hb, List.find?, hf]
      · have hf : (hd.1 == k') = false := by simp [h2]
        simp [List.filter_cons, hb, List.find?, hf, ih]

/-- Overwriting one key leaves every other key's lookup unchanged. -/
lemma cacheGet_cacheSet_ne {α : Type} (c : Cache α) (k0 : String) (e : CEntry α)
    (t : Nat) (k : String) (h : k ≠ k0) :
    cacheGet (cacheSet c k0 e) t k = cacheGet c t k := by
  unfold cacheGet cacheSet
  have hh : ((k0, e).1 == k) = false := by
    simp only [beq_eq_false_iff_ne]
    exact fun e' => h e'.symm
  rw [List.find?_cons_of_neg _ (by simp [hh])]
  rw [find?_filter_ne c k0 k h]

/-- The key-prefixing `ck` is injective. -/
lemma ck_inj : ∀ {a b : String}, ck a = ck b → a = b := by
  intro a b h
  cases a with | mk la =>
  cases b with | mk lb =>
  unfold ck at h
  have hd : ('c' :: ':' :: la) = ('c' :: ':' :: lb) := congrArg String.data h
  have hlab : la = lb := by simpa using hd
  rw [hlab]

/-- One summary iteration writes (at most) its own id's cache key and leaves
every other key's lookup unchanged, at every read time. -/
lemma summaryStep_cacheGet_other (c : Cache Nat) (t : Nat) (id : Int)
    (fr : FetchResult Nat) (t' : Nat) (k : String) (h : k ≠ ck (sumUrl id)) :
    cacheGet (summaryStep c t id fr).2 t' k = cacheGet c t' k := by
  simp only [summaryStep]
  repeat' split
  all_goals first
    | rfl
    | exact cacheGet_cacheSet_ne _ _ _ _ _ h

/-- One summary iteration's result entry depends on the cache only through the
lookup of its own id's key. -/
lemma summaryStep_fst_congr (c c' : Cache Nat) (t : Nat) (id : Int)
    (fr : FetchResult Nat)
    (h : cacheGet c t (ck (sumUrl id)) = cacheGet c' t (ck (sumUrl id))) :
    (summaryStep c t id fr).1 = (summaryStep c' t id fr).1 := by
  have hf : getFresh c t (sumUrl id) = getFresh c' t (sumUrl id) := by
    unfold getFresh
    rw [h]
  have hs : getStale c t (sumUrl id) = getStale c' t (sumUrl id) := by
    unfold getStale
    rw [h]
  simp only [summaryStep]
  rw [hf, hs]
  repeat' split
  all_goals rfl

/-- Every summary result entry carries its own id. -/
lemma summaryStep_id (c : Cache Nat) (t : Nat) (id : Int) (fr : FetchResult Nat) :
    (summaryStep c t id fr).1.id = id := by
  simp only [summaryStep]
  repeat' split
  all_goals rfl

/-- The summary loop produces exactly one entry per parsed id. -/
lemma summaryRun_length (t : Nat) (orc : Int → FetchResult Nat) :
    ∀ (ids : List Int) (c : Cache Nat),
      (summaryRun t orc c ids).1.length = ids.length := by
  intro ids
  induction ids with
  | nil => intro c; rfl
  | cons id rest ih =>
    intro c
    simp only [summaryRun, List.length_cons]
    rw [ih]

/-- Looking up the key a `cacheSet` just wrote finds the new entry (subject to
the ttl check). -/
lemma cacheGet_cacheSet_self {α : Type} (c : Cache α) (k : String) (e : CEntry α) (t : Nat) :
    cacheGet (cacheSet c k e) t k = if t - e.ts ≤ e.ttl then some e else none := by
  unfold cacheGet cacheSet
  rw [List.find?_cons_of_pos _ (by simp)]

/-- `getFresh` misses exactly when the underlying lookup does. -/
lemma getFresh_none_iff {α : Type} (c : Cache α) (t : Nat) (url : String) :
    getFresh c t url = none ↔ cacheGet c t (ck url) = none := by
  unfold getFresh
  cases cacheGet c t (ck url) <;> simp

/-- Relation between the cache threaded through the summary loop and the
initial cache: every id's key either still reads as initially, or holds the
entry written by that id's own successful (2xx) fetch at the request time. -/
def summaryCacheInv (c0 : Cache Nat) (t : Nat) (orc : Int → FetchResult Nat)
    (c' : Cache Nat) : Prop :=
  ∀ id : Int,
    cacheGet c' t (ck (sumUrl id)) = cacheGet c0 t (ck (sumUrl id)) ∨
    ∃ s v, orc id = .ok s v ∧ (200 ≤ s ∧ s < 300) ∧
      getFresh c0 t (sumUrl id) = none ∧
      cacheGet c' t (ck (sumUrl id)) = some ⟨t, TTL_SUMMARY, v⟩

/-- Under the invariant, every id's summary entry is the one computed from the
initial cache: a same-id rewrite only makes the fresh read return exactly the
body a 2xx re-fetch would have returned. -/
lemma summaryStep_inv_entry (c0 : Cache Nat) (t : Nat) (orc : Int → FetchResult Nat)
    (c' : Cache Nat) (hinv : summaryCacheInv c0 t orc c') (id : Int) :
    (summaryStep c' t id (orc id)).1 = (summaryStep c0 t id (orc id)).1 := by
  rcases hinv id with heq | ⟨s, v, ho, h2, hfr0, hget⟩
  · exact summaryStep_fst_congr c' c0 t id (orc id) heq
  · have hfr' : getFresh c' t (sumUrl id) = some v := by
      unfold getFresh
      rw [hget]
      rfl
    simp only [summaryStep]
    rw [hfr', hfr0, ho]
    dsimp only
    rw [if_pos h2]

/-- One summary iteration preserves the invariant: it writes only its own id's
key, and only on a fresh miss with a 2xx outcome. -/
lemma summaryStep_inv_preserved (c0 : Cache Nat) (t : Nat) (orc : Int → FetchResult Nat)
    (c' : Cache Nat) (hinv : summaryCacheInv c0 t orc c') (id0 : Int) :
    summaryCacheInv c0 t orc (summaryStep c' t id0 (orc id0)).2 := by
  intro id
  by_cases hk : ck (sumUrl id) = ck (sumUrl id0)
  · have hid : id = id0 := sumUrl_inj (ck_inj hk)
    subst hid
    rcases hf : getFresh c' t (sumUrl id) with _ | v
    · rcases ho : orc id with ⟨s, v⟩ | last
      · by_cases h2 : 200 ≤ s ∧ s < 300
        · right
          refine ⟨s, v, rfl, h2, ?_, ?_⟩
          · rcases hinv id with heq | ⟨s', v', _, _, _, hget'⟩
            · rw [getFresh_none_iff] at hf ⊢
              rw [← heq]
              exact hf
            · exfalso
              rw [getFresh_none_iff, hget'] at hf
              cases hf
          · have hstep2 : (summaryStep c' t id (FetchResult.ok s v)).2 =
                setCache c' t (sumUrl id) v TTL_SUMMARY := by
              simp only [summaryStep]
              rw [hf]
              dsimp only
              rw [if_pos h2]
            rw [hstep2]
            unfold setCache
            rw [cacheGet_cacheSet_self]
            simp
        · have hstep2 : (summaryStep c' t id (FetchResult.ok s v)).2 = c' := by
            simp only [summaryStep]
            rw [hf]
            dsimp only
            rw [if_neg h2]
            split <;> rfl
          rw [hstep2]
          rcases hinv id with heq | ⟨s', v', ho', h2', hfr0', hget'⟩
          · left
            exact heq
          · exfalso
            rw [getFresh_none_iff, hget'] at hf
            cases hf
      · have hstep2 : (summaryStep c' t id (FetchResult.thrown last)).2 = c' := by
          simp only [summaryStep]
          rw [hf]
          dsimp only
          split <;> rfl
        rw [hstep2]
        rcases hinv id with heq | ⟨s', v', ho', h2', hfr0', hget'⟩
        · left
          exact heq
        · exfalso
          rw [getFresh_none_iff, hget'] at hf
          cases hf
    · have hstep2 : (summaryStep c' t id (orc id)).2 = c' := by
        simp only [summaryStep]
        rw [hf]
      rw [hstep2]
      exact hinv id
  · have hpres := summaryStep_cacheGet_other c' t id0 (orc id0) t (ck (sumUrl id)) hk
    rcases hinv id with heq | ⟨s, v, ho, h2, hfr0, hget⟩
    · left
      rw [hpres]
      exact heq
    · right
      exact ⟨s, v, ho, h2, hfr0, by rw [hpres]; exact hget⟩

/-- Each position of the summary loop's output, started from any cache related
to the initial one by the invariant, equals the per-id pipeline run against
the initial cache — for arbitrary id lists, duplicates included. -/
lemma summaryRun_get_inv (t : Nat) (orc : Int → FetchResult Nat) (c0 : Cache Nat) :
    ∀ (ids : List Int) (c' : Cache Nat), summaryCacheInv c0 t orc c' →
      ∀ i, ∀ h : i < ids.length,
        (summaryRun t orc c' ids).1.get? i =
          some (summaryStep c0 t (ids.get ⟨i, h⟩) (orc (ids.get ⟨i, h⟩))).1 := by
  intro ids
  induction ids with
  | nil =>
    intro c' _ i h
    exact absurd h (by simp)
  | cons id rest ih =>
    intro c' hinv i h
    cases i with
    | zero =>
      show some (summaryStep c' t id (orc id)).1 = some (summaryStep c0 t id (orc id)).1
      rw [summaryStep_inv_entry c0 t orc c' hinv id]
    | succ i' =>
      have h' : i' < rest.length := by simpa using h
      show (summaryRun t orc ((summaryStep c' t id (orc id)).2) rest).1.get? i' = _
      exact ih ((summaryStep c' t id (orc id)).2)
        (summaryStep_inv_preserved c0 t orc c' hinv id) i' h'

/-- A history row-result is always reported ok. -/
lemma mkHistEntry_ok (id : Int) (gw : Nat) (d : HistData) (st : Bool) :
    (mkHistEntry id gw d st).ok = true := by
  unfold mkHistEntry
  split <;> rfl

/-- A history row-result carries the stale flag it was built with. -/
lemma mkHistEntry_stale (id : Int) (gw : Nat) (d : HistData) (st : Bool) :
    (mkHistEntry id gw d st).staleFlag = st := by
  unfold mkHistEntry
  split <;> rfl

/-- A history row-result carries its id. -/
lemma mkHistEntry_id (id : Int) (gw : Nat) (d : HistData) (st : Bool) :
    (mkHistEntry id gw d st).id = id := by
  unfold mkHistEntry
  split <;> rfl

/-- Every history result entry carries its own id. -/
lemma historyStep_id (c : Cache HistData) (t gw : Nat) (id : Int)
    (fr : FetchResult HistData) : (historyStep c t gw id fr).1.id = id := by
  simp only [historyStep]
  repeat' split
  all_goals first
    | rfl
    | exact mkHistEntry_id _ _ _ _

/-- One history iteration writes (at most) its own id's cache key and leaves
every other key's lookup unchanged, at every read time. -/
lemma historyStep_cacheGet_other (c : Cache HistData) (t gw : Nat) (id : Int)
    (fr : FetchResult HistData) (t' : Nat) (k : String) (h : k ≠ ck (histUrl id)) :
    cacheGet (historyStep c t gw id fr).2 t' k = cacheGet c t' k := by
  simp only [historyStep]
  repeat' split
  all_goals first
    | rfl
    | exact cacheGet_cacheSet_ne _ _ _ _ _ h

/-- One history iteration's result entry depends on the cache only through the
lookup of its own id's key. -/
lemma historyStep_fst_congr (c c' : Cache HistData) (t gw : Nat) (id : Int)
    (fr : FetchResult HistData)
    (h : cacheGet c t (ck (histUrl id)) = cacheGet c' t (ck (histUrl id))) :
    (historyStep c t gw id fr).1 = (historyStep c' t gw id fr).1 := by
  have hf : getFresh c t (histUrl id) = getFresh c' t (histUrl id) := by
    unfold getFresh
    rw [h]
  have hs : getStale c t (histUrl id) = getStale c' t (histUrl id) := by
    unfold getStale
    rw [h]
  simp only [historyStep]
  rw [hf, hs]
  repeat' split
  all_goals rfl

/-- The history loop produces exactly one entry per parsed id. -/
lemma historyRun_length (t gw : Nat) (orch : Int → FetchResult HistData) :
    ∀ (ids : List Int) (c : Cache HistData),
      (historyRun t gw orch c ids).1.length = ids.length := by
  intro ids
  induction ids with
  | nil => intro c; rfl
  | cons id rest ih =>
    intro c
    simp only [historyRun, List.length_cons]
    rw [ih]

/-- Relation between the cache threaded through the history loop and the
initial cache: every id's key either still reads as initially, or holds the
entry written from that id's own returned response body (cached whatever its
status — see C5) at the request time. -/
def historyCacheInv (c0 : Cache HistData) (t : Nat) (orch : Int → FetchResult HistData)
    (c' : Cache HistData) : Prop :=
  ∀ id : Int,
    cacheGet c' t (ck (histUrl id)) = cacheGet c0 t (ck (histUrl id)) ∨
    ∃ s d, orch id = .ok s d ∧ getFresh c0 t (histUrl id) = none ∧
      cacheGet c' t (ck (histUrl id)) = some ⟨t, TTL_HISTORY, d⟩

/-- Under the invariant, every id's history entry is the one computed from the
initial cache: a same-id rewrite only makes the fresh read return exactly the
body a re-fetch would have returned. -/
lemma historyStep_inv_entry (c0 : Cache HistData) (t gw : Nat)
    (orch : Int → FetchResult HistData) (c' : Cache HistData)
    (hinv : historyCacheInv c0 t orch c') (id : Int) :
    (historyStep c' t gw id (orch id)).1 = (historyStep c0 t gw id (orch id)).1 := by
  rcases hinv id with heq | ⟨s, d, ho, hfr0, hget⟩
  · exact historyStep_fst_congr c' c0 t gw id (orch id) heq
  · have hfr' : getFresh c' t (histUrl id) = some d := by
      unfold getFresh
      rw [hget]
      rfl
    simp only [historyStep]
    rw [hfr', hfr0, ho]

/-- One history iteration preserves the invariant: it writes only its own id's
key, and only on a fresh miss with a returned response. -/
lemma historyStep_inv_preserved (c0 : Cache HistData) (t gw : Nat)
    (orch : Int → FetchResult HistData) (c' : Cache HistData)
    (hinv : historyCacheInv c0 t orch c') (id0 : Int) :
    historyCacheInv c0 t orch (historyStep c' t gw id0 (orch id0)).2 := by
  intro id
  by_cases hk : ck (histUrl id) = ck (histUrl id0)
  · have hid : id = id0 := histUrl_inj (ck_inj hk)
    subst hid
    rcases hf : getFresh c' t (histUrl id) with _ | d
    · rcases ho : orch id with ⟨s, d⟩ | last
      · right
        refine ⟨s, d, rfl, ?_, ?_⟩
        · rcases hinv id with heq | ⟨s', d', _, _, hget'⟩
          · rw [getFresh_none_iff] at hf ⊢
            rw [← heq]
            exact hf
          · exfalso
            rw [getFresh_none_iff, hget'] at hf
            cases hf
        · have hstep2 : (historyStep c' t gw id (FetchResult.ok s d)).2 =
              setCache c' t (histUrl id) d TTL_HISTORY := by
            simp only [historyStep]
            rw [hf]
          rw [hstep2]
          unfold setCache
          rw [cacheGet_cacheSet_self]
          simp
      · have hstep2 : (historyStep c' t gw id (FetchResult.thrown last)).2 = c' := by
          simp only [historyStep]
          rw [hf]
          dsimp only
          split <;> rfl
        rw [hstep2]
        rcases hinv id with heq | ⟨s', d', ho', hfr0', hget'⟩
        · left
          exact heq
        · exfalso
          rw [getFresh_none_iff, hget'] at hf
          cases hf
    · have hstep2 : (historyStep c' t gw id (orch id)).2 = c' := by
        simp only [historyStep]
        rw [hf]
      rw [hstep2]
      exact hinv id
  · have hpres := historyStep_cacheGet_other c' t gw id0 (orch id0) t (ck (histUrl id)) hk
    rcases hinv id with heq | ⟨s, d, ho, hfr0, hget⟩
    · left
      rw [hpres]
      exact heq
    · right
      exact ⟨s, d, ho, hfr0, by rw [hpres]; exact hget⟩

/-- Each position of the history loop's output, started from any cache related
to the initial one by the invariant, equals the per-id pipeline run against
the initial cache — for arbitrary id lists, duplicates included. -/
lemma historyRun_get_inv (t gw : Nat) (orch : Int → FetchResult HistData)
    (c0 : Cache HistData) :
    ∀ (ids : List Int) (c' : Cache HistData), historyCacheInv c0 t orch c' →
      ∀ i, ∀ h : i < ids.length,
        (historyRun t gw orch c' ids).1.get? i =
          some (historyStep c0 t gw (ids.get ⟨i, h⟩) (orch (ids.get ⟨i, h⟩))).1 := by
  intro ids
  induction ids with
  | nil =>
    intro c' _ i h
    exact absurd h (by simp)
  | cons id rest ih =>
    intro c' hinv i h
    cases i with
    | zero =>
      show some (historyStep c' t gw id (orch id)).1 =
        some (historyStep c0 t gw id (orch id)).1
      rw [historyStep_inv_entry c0 t gw orch c' hinv id]
    | succ i' =>
      have h' : i' < rest.length := by simpa using h
      show (historyRun t gw orch ((historyStep c' t gw id (orch id)).2) rest).1.get? i' = _
      exact ih ((historyStep c' t gw id (orch id)).2)
        (historyStep_inv_preserved c0 t gw orch c' hinv id) i' h'

/-- Exact tagging of a per-id summary entry: ok:false exactly on a fresh miss
with a failed fetch (non-2xx or thrown) and no stale fallback. -/
lemma summaryStep_ok_false_iff (c : Cache Nat) (t : Nat) (id : Int)
    (fr : FetchResult Nat) :
    (summaryStep c t id fr).1.ok = false ↔
      (getFresh c t (sumUrl id) = none ∧ getStale c t (sumUrl id) = none ∧
        match fr with
        | .ok s _ => ¬(200 ≤ s ∧ s < 300)
        | .thrown _ => True) := by
  simp only [summaryStep]
  rcases hf : getFresh c t (sumUrl id) with _ | v
  · rcases fr with ⟨s, v⟩ | last
    · by_cases h2 : 200 ≤ s ∧ s < 300
      · simp [h2]
      · rcases hst : getStale c t (sumUrl id) with _ | v' <;> simp [h2, hst]
    · rcases hst : getStale c t (sumUrl id) with _ | v' <;> simp [hst]
  · simp

/-- Exact stale flagging of a per-id summary entry: flagged exactly when a
within-ttl stale fallback answered a failed fetch. -/
lemma summaryStep_stale_iff (c : Cache Nat) (t : Nat) (id : Int)
    (fr : FetchResult Nat) :
    (summaryStep c t id fr).1.staleFlag = true ↔
      (getFresh c t (sumUrl id) = none ∧ (∃ v, getStale c t (sumUrl id) = some v) ∧
        match fr with
        | .ok s _ => ¬(200 ≤ s ∧ s < 300)
        | .thrown _ => True) := by
  simp only [summaryStep]
  rcases hf : getFresh c t (sumUrl id) with _ | v
  · rcases fr with ⟨s, v⟩ | last
    · by_cases h2 : 200 ≤ s ∧ s < 300
      · simp [h2]
      · rcases hst : getStale c t (sumUrl id) with _ | v' <;> simp [h2, hst]
    · rcases hst : getStale c t (sumUrl id) with _ | v' <;> simp [hst]
  · simp

/-- Exact tagging of a per-id history entry: ok:false exactly on a fresh miss
with a THROWN fetch and no stale fallback — an id whose fetch returns a
response, of any status, is tagged ok:true. -/
lemma historyStep_ok_false_iff (c : Cache HistData) (t gw : Nat) (id : Int)
    (fr : FetchResult HistData) :
    (historyStep c t gw id fr).1.ok = false ↔
      (getFresh c t (histUrl id) = none ∧ getStale c t (histUrl id) = none ∧
        ∃ last, fr = .thrown last) := by
  simp only [historyStep]
  rcases hf : getFresh c t (histUrl id) with _ | d
  · rcases fr with ⟨s, d⟩ | last
    · simp [mkHistEntry_ok]
    · rcases hst : getStale c t (histUrl id) with _ | d' <;> simp [hst, mkHistEntry_ok]
  · simp [mkHistEntry_ok]

/-- Exact stale flagging of a per-id history entry: flagged exactly when a
within-ttl stale fallback answered a thrown fetch. -/
lemma historyStep_stale_iff (c : Cache HistData) (t gw : Nat) (id : Int)
    (fr : FetchResult HistData) :
    (historyStep c t gw id fr).1.staleFlag = true ↔
      (getFresh c t (histUrl id) = none ∧ (∃ d, getStale c t (histUrl id) = some d) ∧
        ∃ last, fr = .thrown last) := by
  simp only [historyStep]
  rcases hf : getFresh c t (histUrl id) with _ | d
  · rcases fr with ⟨s, d⟩ | last
    · simp [mkHistEntry_stale]
    · rcases hst : getStale c t (histUrl id) with _ | d' <;> simp [hst, mkHistEntry_stale]
  · simp [mkHistEntry_stale]

/-- Claim C9, counterexample: the claim's per-entry tagging fails on the
history aggregate.  With an empty cache, the fetch for id 5 returns a 404 — an
upstream failure with no fresh or stale fallback — yet the history endpoint
tags the entry ok:true (the 404 body is treated as data and even cached); the
claim, per its own `ids=1,2,999` example, requires such an id to be tagged
ok:false.  `specC9HistoryEntryTag` states the claim's asserted tagging at this
input and evaluates to false on the code. -/
theorem c9_history_tagging_counterexample :
    specC9HistoryEntryTag ([] : Cache HistData) 0 1 5 (.ok 404 ⟨[]⟩) = false ∧
    (historyStep ([] : Cache HistData) 0 1 5 (.ok 404 ⟨[]⟩)).1.ok = true ∧
    getFresh ([] : Cache HistData) 0 (histUrl 5) = (none : Option HistData) ∧
    getStale ([] : Cache HistData) 0 (histUrl 5) = (none : Option HistData) ∧
    ¬ (200 ≤ 404 ∧ 404 < 300) := by
  decide

/-- Claim C9, amended: both aggregate endpoints (summary and history) produce
exactly one result entry per parsed id — duplicate ids included — each entry
carries its own id, and each entry equals the per-id pipeline result computed
from the initial cache and that id's own upstream outcome, so one id's
upstream failure never prevents or alters another id's entry.  The tagging,
however, differs between the endpoints: a summary entry is ok:false exactly
when its fetch failed (non-2xx or thrown) with no fresh or stale data, and
stale-flagged exactly when stale data answered a failed fetch; a history entry
is ok:false only when its fetch THREW with no fallback — a returned non-2xx
response (e.g. a 404) is treated as data and tagged ok:true (see the
counterexample). -/
theorem c9_aggregate_per_id (c : Cache Nat) (ch : Cache HistData) (t gw : Nat)
    (orc : Int → FetchResult Nat) (orch : Int → FetchResult HistData)
    (ids : List Int) (_hne : ids ≠ []) :
    ((summaryRun t orc c ids).1.length = ids.length ∧
     (∀ i, ∀ h : i < ids.length,
        (summaryRun t orc c ids).1.get? i =
          some (summaryStep c t (ids.get ⟨i, h⟩) (orc (ids.get ⟨i, h⟩))).1) ∧
     (∀ id : Int, (summaryStep c t id (orc id)).1.id = id) ∧
     (∀ id : Int, ((summaryStep c t id (orc id)).1.ok = false ↔
        (getFresh c t (sumUrl id) = none ∧ getStale c t (sumUrl id) = none ∧
          match orc id with
          | .ok s _ => ¬(200 ≤ s ∧ s < 300)
          | .thrown _ => True))) ∧
     (∀ id : Int, ((summaryStep c t id (orc id)).1.staleFlag = true ↔
        (getFresh c t (sumUrl id) = none ∧ (∃ v, getStale c t (sumUrl id) = some v) ∧
          match orc id with
          | .ok s _ => ¬(200 ≤ s ∧ s < 300)
          | .thrown _ => True)))) ∧
    ((historyRun t gw orch ch ids).1.length = ids.length ∧
     (∀ i, ∀ h : i < ids.length,
        (historyRun t gw orch ch ids).1.get? i =
          some (historyStep ch t gw (ids.get ⟨i, h⟩) (orch (ids.get ⟨i, h⟩))).1) ∧
     (∀ id : Int, (historyStep ch t gw id (orch id)).1.id = id) ∧
     (∀ id : Int, ((historyStep ch t gw id (orch id)).1.ok = false ↔
        (getFresh ch t (histUrl id) = none ∧ getStale ch t (histUrl id) = none ∧
          ∃ last, orch id = .thrown last))) ∧
     (∀ id : Int, ((historyStep ch t gw id (orch id)).1.staleFlag = true ↔
        (getFresh ch t (histUrl id) = none ∧ (∃ d, getStale ch t (histUrl id) = some d) ∧
          ∃ last, orch id = .thrown last)))) := by
  refine ⟨⟨summaryRun_length t orc ids c, ?_, ?_, ?_, ?_⟩,
          ⟨historyRun_length t gw orch ids ch, ?_, ?_, ?_, ?_⟩⟩
  · exact summaryRun_get_inv t orc c ids c (fun id => Or.inl rfl)
  · intro id
    exact summaryStep_id c t id (orc id)
  · intro id
    exact summaryStep_ok_false_iff c t id (orc id)
  · intro id
    exact summaryStep_stale_iff c t id (orc id)
  · exact historyRun_get_inv t gw orch ch ids ch (fun id => Or.inl rfl)
  · intro id
    exact historyStep_id ch t gw id (orch id)
  · intro id
    exact historyStep_ok_false_iff ch t gw id (orch id)
  · intro id
    exact historyStep_stale_iff ch t gw id (orch id)

/-- Witness for the amended C9: the spec's example `ids=1,2,999` where 999's
fetch throws — both endpoints produce three entries, and the failing id's
entry is exactly its own per-id result computed on the initial cache,
independent of the other ids. -/
theorem c9_aggregate_per_id_witness :
    (summaryRun 0 (fun id => if id = 999 then FetchResult.thrown none else .ok 200 11)
        ([] : Cache Nat) [1, 2, 999]).1.length = 3 ∧
    (summaryRun 0 (fun id => if id = 999 then FetchResult.thrown none else .ok 200 11)
        ([] : Cache Nat) [1, 2, 999]).1.get? 2 =
      some (summaryStep ([] : Cache Nat) 0 999 (FetchResult.thrown none)).1 ∧
    (historyRun 0 1
        (fun id => if id = 999 then FetchResult.thrown none else .ok 200 ⟨[⟨1, 7⟩]⟩)
        ([] : Cache HistData) [1, 2, 999]).1.length = 3 ∧
    (historyRun 0 1
        (fun id => if id = 999 then FetchResult.thrown none else .ok 200 ⟨[⟨1, 7⟩]⟩)
        ([] : Cache HistData) [1, 2, 999]).1.get? 2 =
      some (historyStep ([] : Cache HistData) 0 1 999 (FetchResult.thrown none)).1 := by
  have h := c9_aggregate_per_id ([] : Cache Nat) ([] : Cache HistData) 0 1
      (fun id => if id = 999 then FetchResult.thrown none else .ok 200 11)
      (fun id => if id = 999 then FetchResult.thrown none else .ok 200 ⟨[⟨1, 7⟩]⟩)
      [1, 2, 999] (by decide)
  refine ⟨h.1.1, ?_, h.2.1, ?_⟩
  · exact h.1.2.1 2 (by decide)
  · exact h.2.2.1 2 (by decide)

/-- Claim C10: the aggregate ids parsing splits on commas, integer-parses each
token and drops every falsy value, so the token "0" and non-numeric tokens are
silently discarded; a request whose ids consist only of such tokens (e.g.
`ids=0`) is answered 400 `{error: "ids required"}` although an ids value was
supplied, and otherwise the results array has exactly one entry per surviving
token. -/
theorem c10_ids_parsing :
    (∀ (c : Cache Nat) (t : Nat) (orc : Int → FetchResult Nat),
        summaryRoute c t orc "0" = .badRequest) ∧
    parseIds "0" = [] ∧
    parseIds "" = [] ∧
    parseIds "0,7,zebra" = [7] ∧
    (∀ (c : Cache Nat) (t : Nat) (orc : Int → FetchResult Nat) (s : String),
        match summaryRoute c t orc s with
        | .badRequest => parseIds s = []
        | .okJson rs => rs.length = (parseIds s).length) := by
  refine ⟨?_, by decide, by decide, by decide, ?_⟩
  · intro c t orc
    rfl
  · intro c t orc s
    simp only [summaryRoute]
    by_cases h : (parseIds s).isEmpty = true
    · rw [if_pos h]
      exact List.isEmpty_iff.mp h
    · rw [if_neg h]
      exact summaryRun_length t orc (parseIds s) c

end FplProxy
